import Mathlib

/-!
Formal model of the core of the `ragon` RAG backend, together with theorems
that check the natural-language specification against the code.

The development shallowly embeds, directly from the Python sources:

* `app/core/cache_service.py` — the tiered cache (`TTLCache`, the
  PostgreSQL fallback table, and the combined `CacheService`);
* `app/rag/services/retrieval.py` — the query-complexity analyzer and the
  query-expansion service;
* `app/rag/service.py` — document deduplication/filtering, citation
  building, the semantic answer cache check, and document ingestion;
* `app/document/router.py` — the ingestion caller `process_and_ingest`.

Strings are modelled as `List Char`, Python `None`-able values as
`Option α`, float scores as `ℚ`, wall-clock time as `Nat`, and the two
dictionaries of the memory cache as association lists (Python dicts keep
insertion order, which the LRU logic depends on).
-/

/-! ### Python string primitives -/

/-- The ASCII whitespace characters recognised by Python's `str.split()`,
`str.strip()` and the regex class `\s`. -/
def pyIsSpace (c : Char) : Bool :=
  c = ' ' || c = '\t' || c = '\n' || c = '\r' || c = '\x0b' || c = '\x0c'

/-- Python `str.strip()`: remove leading and trailing whitespace. -/
def pyStrip (s : List Char) : List Char :=
  ((s.dropWhile pyIsSpace).reverse.dropWhile pyIsSpace).reverse

/-- Helper for `pySplitWords`: `cur` is the current (reversed) in-progress word. -/
def pySplitAux : List Char → List Char → List (List Char)
  | cur, [] => if cur.isEmpty then [] else [cur.reverse]
  | cur, c :: rest =>
    if pyIsSpace c then
      if cur.isEmpty then pySplitAux [] rest else cur.reverse :: pySplitAux [] rest
    else pySplitAux (c :: cur) rest

/-- Python `str.split()` with no separator: maximal runs of non-whitespace. -/
def pySplitWords (s : List Char) : List (List Char) :=
  pySplitAux [] s

/-- Python `str.lower()` (the sources only feed it ASCII text). -/
def pyLower (s : List Char) : List Char :=
  s.map Char.toLower

/-! ### Regex building blocks for `QueryAnalyzer.complex_patterns`

Python's `re` module with ASCII text: `\w` is `[a-zA-Z0-9_]`, `\b` is a
transition between word and non-word characters, and `.` matches anything
except a newline.  Each of the five patterns of
`QueryAnalyzer.complex_patterns` is compiled by hand into a decidable
scanner over `List Char`; `re.search` existence corresponds to scanning
every start position. -/

/-- The regex word-character class `\w` over ASCII text. -/
def isWordChar (c : Char) : Bool :=
  c.isAlphanum || c = '_'

/-- Word boundary `\b` on the left of a match position; `prev` is the
character immediately before the position (`none` at the string start). -/
def boundaryBefore : Option Char → Bool
  | none => true
  | some c => !isWordChar c

/-- Word boundary `\b` on the right of a match: next character (if any)
must not be a word character. -/
def boundaryAfter : List Char → Bool
  | [] => true
  | c :: _ => !isWordChar c

/-- Matches `\bw\b` exactly at the current position of `s`, where `prev` is
the character before the position. -/
def wordHere (prev : Option Char) (w s : List Char) : Bool :=
  boundaryBefore prev && w.isPrefixOf s && boundaryAfter (s.drop w.length)

/-- The previous-character context after consuming `w` (used for the `\b`
of a later subpattern). -/
def prevAfter (prev : Option Char) (w : List Char) : Option Char :=
  match w.getLast? with
  | none => prev
  | some c => some c

/-- The regex fragment `.*\?` anchored at the current position: a `?` later
in the string with no newline in between. -/
def dotStarQuestion : List Char → Bool
  | [] => false
  | c :: rest => c = '?' || (c ≠ '\n' && dotStarQuestion rest)

/-- The regex fragment `.*\b(w₁|…|wₙ)\b` anchored at the current position. -/
def dotStarWord (ws : List (List Char)) : Option Char → List Char → Bool
  | _, [] => false
  | prev, c :: rest =>
    ws.any (fun w => wordHere prev w (c :: rest)) ||
      (c ≠ '\n' && dotStarWord ws (some c) rest)

/-- Search for `\b(w₁|…|wₙ)\b.*\?` (pattern 1), scanning every position. -/
def pat1Scan (ws : List (List Char)) : Option Char → List Char → Bool
  | _, [] => false
  | prev, c :: rest =>
    ws.any (fun w => wordHere prev w (c :: rest) &&
      dotStarQuestion ((c :: rest).drop w.length)) ||
    pat1Scan ws (some c) rest

/-- Search for `\b(w₁|…)\b.*\b(u₁|…)\b` (pattern 2), scanning every position. -/
def pat2Scan (ws us : List (List Char)) : Option Char → List Char → Bool
  | _, [] => false
  | prev, c :: rest =>
    ws.any (fun w => wordHere prev w (c :: rest) &&
      dotStarWord us (prevAfter prev w) ((c :: rest).drop w.length)) ||
    pat2Scan ws us (some c) rest

/-- Search for `\b(w₁|…|wₙ)\b` (patterns 3 and 4), scanning every position. -/
def wordScan (ws : List (List Char)) : Option Char → List Char → Bool
  | _, [] => false
  | prev, c :: rest =>
    ws.any (fun w => wordHere prev w (c :: rest)) || wordScan ws (some c) rest

/-- After `[0-9]+\s` of pattern 5: optionally more `\s`, then one of the
literal alternatives (the pattern has no trailing `\b`). -/
def wsWordPart (ws : List (List Char)) : List Char → Bool
  | [] => false
  | c :: rest => ws.any (fun w => w.isPrefixOf (c :: rest)) ||
      (pyIsSpace c && wsWordPart ws rest)

/-- After `[0-9]` of pattern 5: more digits, or `\s+` then a literal. -/
def digitsPart (ws : List (List Char)) : List Char → Bool
  | [] => false
  | c :: rest =>
    if pyIsSpace c then wsWordPart ws rest else c.isDigit && digitsPart ws rest

/-- Search for `[0-9]+\s+(w₁|…|wₙ)` (pattern 5), scanning every position. -/
def pat5Scan (ws : List (List Char)) : List Char → Bool
  | [] => false
  | c :: rest => (c.isDigit && digitsPart ws rest) || pat5Scan ws rest

/-! ### `QueryAnalyzer` (`app/rag/services/retrieval.py`) -/

/-- `QueryComplexity` enum. -/
inductive QueryComplexity
  | simple
  | moderate
  | complex
deriving DecidableEq, Repr

/-- Keywords of `complex_patterns[0]`: `\b(how|why|explain|compare|analyze|describe)\b.*\?`. -/
def kwPat1 : List (List Char) :=
  ["how".data, "why".data, "explain".data, "compare".data, "analyze".data, "describe".data]

/-- First group of `complex_patterns[1]`: `what|which|when|where`. -/
def kwPat2a : List (List Char) :=
  ["what".data, "which".data, "when".data, "where".data]

/-- Second group of `complex_patterns[1]`: `and|or|versus|vs|but`. -/
def kwPat2b : List (List Char) :=
  ["and".data, "or".data, "versus".data, "vs".data, "but".data]

/-- Keywords of `complex_patterns[2]`: `multiple|several|different|various`. -/
def kwPat3 : List (List Char) :=
  ["multiple".data, "several".data, "different".data, "various".data]

/-- Keywords of `complex_patterns[3]`: `steps|process|procedure|method`. -/
def kwPat4 : List (List Char) :=
  ["steps".data, "process".data, "procedure".data, "method".data]

/-- Literals of `complex_patterns[4]`: `[0-9]+\s+(ways|types|examples|steps)`. -/
def kwPat5 : List (List Char) :=
  ["ways".data, "types".data, "examples".data, "steps".data]

/-- Does any of the five `complex_patterns` match (via `re.search`) the
lower-cased query? -/
def complexMatch (s : List Char) : Bool :=
  pat1Scan kwPat1 none s || pat2Scan kwPat2a kwPat2b none s ||
    wordScan kwPat3 none s || wordScan kwPat4 none s || pat5Scan kwPat5 s

/-- `QueryAnalyzer.simple_threshold`. -/
def simple_threshold : Nat := 3

/-- `QueryAnalyzer.moderate_threshold`. -/
def moderate_threshold : Nat := 9

/-- `QueryAnalyzer.analyze_query`: pattern checks first, then word count. -/
def analyze_query (q : List Char) : QueryComplexity :=
  let query := pyStrip q
  let word_count := (pySplitWords query).length
  if complexMatch (pyLower query) then QueryComplexity.complex
  else if word_count ≤ simple_threshold then QueryComplexity.simple
  else if word_count ≤ moderate_threshold then QueryComplexity.moderate
  else QueryComplexity.complex

/-- `QueryAnalyzer.get_optimal_params` result record (`RetrievalParams`). -/
structure RetrievalParams where
  top_k : Nat
  min_score : ℚ
  expand_query : Bool
  complexity : QueryComplexity
deriving DecidableEq

/-- `QueryAnalyzer.get_optimal_params` (the `reasoning` diagnostic string is
omitted; it carries no behaviour). -/
def get_optimal_params (q : List Char) (base_top_k : Nat) (base_min_score : ℚ) :
    RetrievalParams :=
  match analyze_query q with
  | QueryComplexity.simple =>
    ⟨min base_top_k 10, max base_min_score (mkRat 25 100), false, QueryComplexity.simple⟩
  | QueryComplexity.moderate =>
    ⟨base_top_k, base_min_score, false, QueryComplexity.moderate⟩
  | QueryComplexity.complex =>
    ⟨max base_top_k 8, max base_min_score (mkRat 10 100), true, QueryComplexity.complex⟩

/-! ### Association lists

Python `dict` (and `OrderedDict`) modelled as an insertion-ordered
association list: assignment updates in place or appends, deletion filters. -/

/-- Dictionary lookup `d.get(k)` / `d[k]`. -/
def alookup {κ β : Type} [DecidableEq κ] : List (κ × β) → κ → Option β
  | [], _ => none
  | p :: l, k => if p.1 = k then some p.2 else alookup l k

/-- Dictionary assignment `d[k] = b`: update in place, else append. -/
def aset {κ β : Type} [DecidableEq κ] : List (κ × β) → κ → β → List (κ × β)
  | [], k, b => [(k, b)]
  | p :: l, k, b => if p.1 = k then (k, b) :: l else p :: aset l k b

/-- Dictionary deletion `d.pop(k, None)`. -/
def aremove {κ β : Type} [DecidableEq κ] (l : List (κ × β)) (k : κ) : List (κ × β) :=
  l.filter (fun p => decide (p.1 ≠ k))

/-- `OrderedDict.move_to_end(k)` (identity when the key is absent; the
sources only call it on present keys). -/
def moveToEnd {κ β : Type} [DecidableEq κ] (l : List (κ × β)) (k : κ) : List (κ × β) :=
  match alookup l k with
  | none => l
  | some v => aremove l k ++ [(k, v)]

/-! ### `TTLCache` (`app/core/cache_service.py`)

`_data : OrderedDict` is the recency list (front = least recently used);
`_expiry : Dict[str, float]` the expiry map.  Values are `Option α`
(`none` is Python `None` stored as a value); `get` returns the stored
value on a live hit and Python `None` (`none`) otherwise, exactly like
the source, which makes a stored `None` indistinguishable from a miss. -/

structure TTLCache (κ α : Type) where
  max_size : Nat
  default_ttl : Nat
  data : List (κ × Option α)
  expiry : List (κ × Nat)
deriving DecidableEq

/-- `TTLCache._cleanup_expired`: drop every key whose expiry is `≤ now`
from both dictionaries. -/
def cleanupExpired {κ α : Type} [DecidableEq κ] (c : TTLCache κ α) (now : Nat) :
    TTLCache κ α :=
  let ks := (c.expiry.filter (fun p => decide (p.2 ≤ now))).map Prod.fst
  { c with
    data := c.data.filter (fun p => decide (p.1 ∉ ks)),
    expiry := c.expiry.filter (fun p => decide (¬ p.2 ≤ now)) }

/-- The effective TTL of a `set`: Python `ttl if ttl else self.default_ttl`
(`None` and `0` are both falsy). -/
def ttlSeconds {κ α : Type} (c : TTLCache κ α) (ttl : Option Nat) : Nat :=
  match ttl with
  | some t => if t = 0 then c.default_ttl else t
  | none => c.default_ttl

/-- `TTLCache.get`: cleanup, then hit (refresh recency) or lazy removal. -/
def TTLCache.get {κ α : Type} [DecidableEq κ] (c : TTLCache κ α) (k : κ) (now : Nat) :
    Option α × TTLCache κ α :=
  let c := cleanupExpired c now
  match alookup c.data k with
  | none => (none, c)
  | some v =>
    match alookup c.expiry k with
    | none => (v, { c with data := moveToEnd c.data k })
    | some e =>
      if now < e then (v, { c with data := moveToEnd c.data k })
      else (none, { c with data := aremove c.data k, expiry := aremove c.expiry k })

/-- `TTLCache.set`: cleanup, write value and expiry, move to most-recent,
then `_evict_lru` (pop from the front while over capacity — the source
pops only from `_data`, leaving the `_expiry` entry behind). -/
def TTLCache.set {κ α : Type} [DecidableEq κ] (c : TTLCache κ α) (k : κ)
    (v : Option α) (ttl : Option Nat) (now : Nat) : TTLCache κ α :=
  let c := cleanupExpired c now
  let e := now + ttlSeconds c ttl
  let c := { c with data := moveToEnd (aset c.data k v) k, expiry := aset c.expiry k e }
  { c with data := c.data.drop (c.data.length - c.max_size) }

/-! ### `PostgresCache` (`app/core/cache_service.py`)

The durable tier: one row per key, `value` a JSON document (`none` models
a stored JSON `null`, which the reader maps back to Python `None`),
`expires_at` nullable.  Reads filter `expires_at IS NULL OR expires_at >
NOW()`.  JSON serialisation round-trips values unchanged.  Database I/O is
assumed to succeed; the claims touching the durable tier do not concern
connection failures. -/

/-- `PostgresCache.get`. -/
def pgGet {κ α : Type} [DecidableEq κ] (rows : List (κ × Option α × Option Nat))
    (k : κ) (now : Nat) : Option α :=
  match alookup rows k with
  | none => none
  | some (v, none) => v
  | some (v, some e) => if now < e then v else none

/-- `PostgresCache.set`: upsert; `expires_at` is `NULL` when `ttl` is falsy. -/
def pgSet {κ α : Type} [DecidableEq κ] (rows : List (κ × Option α × Option Nat))
    (k : κ) (v : Option α) (ttl : Option Nat) (now : Nat) :
    List (κ × Option α × Option Nat) :=
  let expires_at : Option Nat :=
    match ttl with
    | some t => if t = 0 then none else some (now + t)
    | none => none
  aset rows k (v, expires_at)

/-! ### `CacheService` (`app/core/cache_service.py`)

The tiered cache: memory tier first, durable tier as fallback with
promotion on hit.  Each operation threads the state; the metrics counters
carry no behaviour and are omitted. -/

structure CacheService (κ α : Type) where
  memory : TTLCache κ α
  pg : List (κ × Option α × Option Nat)
deriving DecidableEq

/-- `CacheService.get`: memory first (`is not None` test), then PostgreSQL
with promotion into the memory tier (default TTL). -/
def CacheService.get {κ α : Type} [DecidableEq κ] (s : CacheService κ α) (k : κ)
    (now : Nat) : Option α × CacheService κ α :=
  let m := s.memory.get k now
  match m.1 with
  | some x => (some x, { s with memory := m.2 })
  | none =>
    match pgGet s.pg k now with
    | some x => (some x, { s with memory := m.2.set k (some x) none now })
    | none => (none, { s with memory := m.2 })

/-- `CacheService.set`: write both tiers; reports success. -/
def CacheService.set {κ α : Type} [DecidableEq κ] (s : CacheService κ α) (k : κ)
    (v : Option α) (ttl : Option Nat) (now : Nat) : Bool × CacheService κ α :=
  (true, { s with memory := s.memory.set k v ttl now, pg := pgSet s.pg k v ttl now })

/-- `CacheService.exists`: `get` on either tier returns non-`None`. -/
def CacheService.exists {κ α : Type} [DecidableEq κ] (s : CacheService κ α) (k : κ)
    (now : Nat) : Bool :=
  ((s.memory.get k now).1).isSome || (pgGet s.pg k now).isSome

/-- `CacheService.get_or_set`: the getter is an `Except` (it may raise, in
which case the error is swallowed and `None` returned); the `Bool` in the
result records whether the getter was invoked.  A non-`None` computed
value is written back; `None` is never cached. -/
def CacheService.get_or_set {κ α : Type} [DecidableEq κ] (s : CacheService κ α)
    (k : κ) (getter : Except Unit (Option α)) (ttl : Option Nat) (now : Nat) :
    Option α × CacheService κ α × Bool :=
  let r := s.get k now
  match r.1 with
  | some x => (some x, r.2, false)
  | none =>
    match getter with
    | Except.error _ => (none, r.2, true)
    | Except.ok value =>
      match value with
      | some x => (some x, (r.2.set k (some x) ttl now).2, true)
      | none => (none, r.2, true)

/-- A fresh `CacheService` (`TTLCache(max_size, default_ttl)`, empty table). -/
def emptyCache (κ α : Type) (max_size default_ttl : Nat) : CacheService κ α :=
  ⟨⟨max_size, default_ttl, [], []⟩, []⟩

/-- Insert a sequence of key/value pairs with `set` (default TTL), in order. -/
def insertSeq {κ α : Type} [DecidableEq κ] (c : TTLCache κ α)
    (L : List (κ × Option α)) (now : Nat) : TTLCache κ α :=
  L.foldl (fun c p => c.set p.1 p.2 none now) c

/-! ### Retrieved documents and `RagService` filtering (`app/rag/service.py`)

A LangChain document as the retrieval pipeline sees it: `page_content`
plus the two metadata fields the code reads, `metadata.get("source",
"Unknown")` and `metadata.get("score", 0.0)`. -/

structure RDoc where
  page_content : List Char
  meta_source : Option (List Char)
  meta_score : Option ℚ
deriving DecidableEq

/-- `doc.metadata.get("score", 0.0)`. -/
def docScore (d : RDoc) : ℚ :=
  d.meta_score.getD 0

/-- `doc.metadata.get("source", "Unknown")`. -/
def docSource (d : RDoc) : List Char :=
  d.meta_source.getD "Unknown".data

/-- The deduplication key of `_deduplicate_and_filter_docs`:
`doc.page_content[:100].strip()` (truncate first, then strip). -/
def dedupKey (d : RDoc) : List Char :=
  pyStrip (d.page_content.take 100)

/-- The filtering/deduplication loop of `_deduplicate_and_filter_docs`:
drop documents below `min_score`, keep the first document for each
`dedupKey` (`seen_content` is the set of keys already kept). -/
def dedupPass (min_score : ℚ) : List RDoc → List (List Char) → List RDoc
  | [], _ => []
  | d :: rest, seen =>
    if docScore d < min_score then dedupPass min_score rest seen
    else if dedupKey d ∈ seen then dedupPass min_score rest seen
    else d :: dedupPass min_score rest (dedupKey d :: seen)

/-- Descending-score order on documents; `insertionSort` with this relation
is exactly Python's stable `list.sort(key=score, reverse=True)`. -/
def docGe (a b : RDoc) : Prop :=
  docScore b ≤ docScore a

instance : DecidableRel docGe :=
  fun a b => inferInstanceAs (Decidable (docScore b ≤ docScore a))

instance : IsTotal RDoc docGe :=
  ⟨fun a b => le_total (docScore b) (docScore a)⟩

instance : IsTrans RDoc docGe :=
  ⟨fun _ _ _ h h2 => le_trans h2 h⟩

/-- `RagService._deduplicate_and_filter_docs`. -/
def deduplicate_and_filter_docs (docs : List RDoc) (min_score : ℚ) : List RDoc :=
  List.insertionSort docGe (dedupPass min_score docs [])

/-- One entry of the `sources` list built by
`_process_documents_for_sources`. -/
structure SrcEntry where
  source : List Char
  similarity_score : ℚ
  content : List Char
deriving DecidableEq

/-- Descending-score order on source entries (stable sort relation for
`_filter_sources_by_threshold`). -/
def srcGe (a b : SrcEntry) : Prop :=
  b.similarity_score ≤ a.similarity_score

instance : DecidableRel srcGe :=
  fun a b => inferInstanceAs (Decidable (b.similarity_score ≤ a.similarity_score))

instance : IsTotal SrcEntry srcGe :=
  ⟨fun a b => le_total b.similarity_score a.similarity_score⟩

instance : IsTrans SrcEntry srcGe :=
  ⟨fun _ _ _ h h2 => le_trans h2 h⟩

/-- The first loop of `_process_documents_for_sources`: one raw entry per
document, with a 500-character content preview. -/
def buildSources (docs : List RDoc) : List SrcEntry :=
  docs.map (fun d => ⟨docSource d, docScore d, d.page_content.take 500⟩)

/-- The `source_map` update of `_process_documents_for_sources`: keep the
entry with the strictly higher score per source name (first wins ties);
dict assignment preserves the slot of an existing key. -/
def updateSourceMap (m : List (List Char × SrcEntry)) (s : SrcEntry) :
    List (List Char × SrcEntry) :=
  match alookup m s.source with
  | none => aset m s.source s
  | some e =>
    if e.similarity_score < s.similarity_score then aset m s.source s else m

/-- `RagService._filter_sources_by_threshold` (defaults `min_score=0.0`,
`top_k=5` at the call site in `_process_documents_for_sources`). -/
def filter_sources_by_threshold (sources : List SrcEntry) (min_score : ℚ)
    (top_k : Nat) : List SrcEntry :=
  ((sources.filter (fun s => decide (min_score ≤ s.similarity_score))).insertionSort
    srcGe).take top_k

/-- `RagService._process_documents_for_sources`. -/
def process_documents_for_sources (docs : List RDoc) : List SrcEntry :=
  let sources := buildSources docs
  let source_map := sources.foldl updateSourceMap []
  filter_sources_by_threshold (source_map.map Prod.snd) 0 5

/-! ### Semantic answer cache (`RagService._check_semantic_cache`) -/

/-- Config default `RAG_SEMANTIC_CACHE_ENABLED` (`app/rag/config.py`). -/
def RAG_SEMANTIC_CACHE_ENABLED : Bool := false

/-- Config default `RAG_SEMANTIC_CACHE_THRESHOLD` (`app/rag/config.py`). -/
def RAG_SEMANTIC_CACHE_THRESHOLD : ℚ := mkRat 92 100

instance {ε α : Type} [DecidableEq ε] [DecidableEq α] : DecidableEq (Except ε α) :=
  fun a b =>
    match a, b with
    | Except.error e, Except.error e' =>
      if h : e = e' then isTrue (by rw [h]) else isFalse (by simp [h])
    | Except.ok x, Except.ok y =>
      if h : x = y then isTrue (by rw [h]) else isFalse (by simp [h])
    | Except.error _, Except.ok _ => isFalse (by simp)
    | Except.ok _, Except.error _ => isFalse (by simp)

/-- A semantic-cache document: the `response` metadata field and the
outcome of `json.loads` on the `sources` metadata field (`Except.error`
when the stored JSON is malformed and `json.loads` raises). -/
structure SCacheDoc where
  response : Option (List Char)
  sourcesMeta : Except Unit (List SrcEntry)
deriving DecidableEq

/-- The hit payload returned by `_check_semantic_cache`. -/
structure SemanticHit where
  response : Option (List Char)
  sources : List SrcEntry
  cached : Bool
  score : ℚ
deriving DecidableEq

/-- `RagService._check_semantic_cache`: no-op when the feature flag is off;
otherwise inspect the 1-nearest-neighbour search outcome (`Except.error`
models the vector index raising), require `score >= threshold`, and let
any exception inside the `try` (including malformed `sources` metadata)
degrade to `None`. -/
def check_semantic_cache (enabled : Bool) (threshold : ℚ)
    (search : Except Unit (List (SCacheDoc × ℚ))) : Option SemanticHit :=
  if enabled = false then none
  else
    match search with
    | Except.error _ => none
    | Except.ok [] => none
    | Except.ok ((doc, score) :: _) =>
      if threshold ≤ score then
        match doc.sourcesMeta with
        | Except.error _ => none
        | Except.ok srcs => some ⟨doc.response, srcs, true, score⟩
      else none

/-! ### `QueryExpansionService` (`app/rag/services/retrieval.py`) -/

/-- The static synonym table `QueryExpansionService.synonyms`. -/
def synonyms : List (List Char × List (List Char)) :=
  [("show".data, ["display".data, "present".data, "illustrate".data]),
   ("create".data, ["build".data, "develop".data, "make".data, "generate".data]),
   ("explain".data, ["describe".data, "clarify".data, "elaborate".data]),
   ("find".data, ["locate".data, "search".data, "discover".data]),
   ("help".data, ["assist".data, "support".data, "aid".data]),
   ("use".data, ["utilize".data, "apply".data, "employ".data]),
   ("work".data, ["function".data, "operate".data, "perform".data]),
   ("problem".data, ["issue".data, "difficulty".data, "challenge".data]),
   ("solution".data, ["answer".data, "fix".data, "resolution".data]),
   ("example".data, ["instance".data, "sample".data, "case".data])]

/-- Per-word choice list: `self.synonyms.get(word, [word])[:2]` — for a
word present in the table, the first two listed alternates (the word
itself is not included); otherwise the word alone. -/
def wordChoices (w : List Char) : List (List Char) :=
  ((alookup synonyms w).getD [w]).take 2

/-- `itertools.product(*lists)`, leftmost factor slowest. -/
def listProd : List (List (List Char)) → List (List (List Char))
  | [] => [[]]
  | choices :: rest => choices.flatMap (fun x => (listProd rest).map (fun c => x :: c))

/-- The combination loop of `expand_query`: `acc` is the live
`expanded_queries` list (original query first); append a joined combo if
it differs from the lower-cased query and is not already present, then
break once the list reaches four entries. -/
def addVariants (queryLower : List Char) : List (List Char) → List (List Char) →
    List (List Char)
  | acc, [] => acc
  | acc, v :: vs =>
    if v ≠ queryLower ∧ v ∉ acc then
      if 4 ≤ (acc ++ [v]).length then acc ++ [v]
      else addVariants queryLower (acc ++ [v]) vs
    else addVariants queryLower acc vs

/-- `QueryExpansionService.expand_query`. -/
def expand_query (q : List Char) : List (List Char) :=
  if q = [] ∨ (pySplitWords q).length < 2 then [q]
  else
    let queryLower := pyLower q
    let words := pySplitWords queryLower
    let expanded_words := words.map wordChoices
    if expanded_words.length ≤ 4 then
      addVariants queryLower [q]
        ((listProd expanded_words).map (fun combo => List.intercalate [' '] combo))
    else [q]

/-! ### Ingestion (`RagService.ingest_document` and
`app/document/router.py::process_and_ingest`) -/

/-- One event on the progress channel: `progress` (−1 terminal failure,
100 terminal success) and the human-readable message. -/
structure PEvent where
  progress : Int
  message : List Char
deriving DecidableEq

/-- The batch-size selection at the top of `ingest_document` (`cfg` is
`settings.RAG_INGEST_BATCH_SIZE`). -/
def ingestBatchSize (file_size cfg : Nat) : Nat :=
  if 20 * 1024 * 1024 < file_size then 25
  else if 10 * 1024 * 1024 < file_size then 50
  else cfg

/-- `RagService.ingest_document`, given the chunk list produced by the
processor: returns the stored chunk count and the progress events emitted
by this function (the caller runs it in a worker thread, so the
`asyncio.get_running_loop()` guards all take the emitting branch).  The
per-batch percentage models `80 + int((i / total_batches) * 20)` with
exact rational arithmetic. -/
def ingest_document (file_size : Nat) (chunks : List (List Char)) (cfg : Nat) :
    Nat × List PEvent :=
  let batch_size := ingestBatchSize file_size cfg
  let ev0 : List PEvent := [⟨60, "Embedding started".data⟩]
  if chunks.isEmpty then (0, ev0)
  else
    let total_batches :=
      if batch_size = 0 then 0 else (chunks.length + batch_size - 1) / batch_size
    let storeEvs := (List.range total_batches).map (fun i =>
      (⟨(80 : Int) + Int.ofNat (i * 20 / total_batches),
        "Storing batch ".data ++ (Nat.repr (i + 1)).data ++ "/".data ++
          (Nat.repr total_batches).data⟩ : PEvent))
    (chunks.length,
     ev0 ++ [⟨80, "Vectors stored".data⟩] ++ storeEvs ++
       [⟨100, "Vector storage completed".data⟩])

/-- `process_and_ingest` (`app/document/router.py`): the leading 15% event,
then either the ingest's own events followed by terminal success (chunks
stored) or the terminal "no content extracted" failure (zero chunks), or —
when `ingest_document` raises — a terminal failure wrapping the exception
text. -/
def process_and_ingest (outcome : Except (List Char) (Nat × List PEvent)) :
    List PEvent :=
  ⟨15, "Starting document analysis".data⟩ ::
    match outcome with
    | Except.ok (n, evs) =>
      evs ++
        (if 0 < n then [⟨100, "Document processing completed".data⟩]
         else [⟨-1, "Document processing failed: no content extracted".data⟩])
    | Except.error e => [⟨-1, "Document processing failed: ".data ++ e⟩]

/-- Modelled from the spec's wording of the C5 deduplication key ("first 100
characters of the trimmed content"): strip first, then truncate.  Kept only
to compare against the code's `dedupKey`, which truncates first. -/
def specTrimFirst (d : RDoc) : List Char :=
  (pyStrip d.page_content).take 100

/-- A 101-character document: 100 `a`s then `1`. -/
def docLongA : RDoc :=
  ⟨List.replicate 100 'a' ++ ['1'], some "s1".data, some (mkRat 1 2)⟩

/-- A 102-character document: a space, 100 `a`s, then `2`.  Its trimmed
content opens with the same 100 characters as `docLongA`. -/
def docLongB : RDoc :=
  ⟨' ' :: (List.replicate 100 'a' ++ ['2']), some "s2".data, some (mkRat 1 2)⟩

/-- The LRU scenario of the spec, run on the memory tier: fill an empty
cache of capacity `Lr.length + 2` with the distinct keys `k0, k1, Lr…` (in
this order), `get` the oldest key `k0`, then insert one further key `knew`.
Returns the value produced by the `get` and the final cache state. -/
def lruScenario {κ α : Type} [DecidableEq κ] (k0 k1 knew : κ)
    (v0 v1 vnew : Option α) (Lr : List (κ × Option α)) (T now : Nat) :
    Option α × TTLCache κ α :=
  let c1 := insertSeq (⟨Lr.length + 2, T, [], []⟩ : TTLCache κ α)
    ((k0, v0) :: (k1, v1) :: Lr) now
  let r := c1.get k0 now
  (r.1, r.2.set knew vnew none now)

/-! ## Lemmas

### Association-list toolkit -/

theorem alookup_eq_none_iff {κ β : Type} [DecidableEq κ] {l : List (κ × β)} {k : κ} :
    alookup l k = none ↔ ∀ p ∈ l, p.1 ≠ k := by
  induction l with
  | nil => simp [alookup]
  | cons p l ih => by_cases h : p.1 = k <;> simp [alookup, h, ih]

theorem alookup_mem {κ β : Type} [DecidableEq κ] {l : List (κ × β)} {k : κ} {b : β}
    (h : alookup l k = some b) : (k, b) ∈ l := by
  induction l with
  | nil => simp [alookup] at h
  | cons p l ih =>
    obtain ⟨a, c⟩ := p
    by_cases hp : a = k
    · subst hp
      simp [alookup] at h
      subst h
      exact List.mem_cons_self _ _
    · simp only [alookup, if_neg hp] at h
      exact List.mem_cons_of_mem _ (ih h)

theorem alookup_of_mem_nodup {κ β : Type} [DecidableEq κ] {l : List (κ × β)} {k : κ}
    {b : β} (hn : (l.map Prod.fst).Nodup) (h : (k, b) ∈ l) : alookup l k = some b := by
  induction l with
  | nil => simp at h
  | cons p l ih =>
    obtain ⟨a, c⟩ := p
    simp only [List.map_cons, List.nodup_cons, List.mem_map] at hn
    rcases List.mem_cons.mp h with h1 | h1
    · injection h1 with h1a h1b
      subst h1a
      subst h1b
      simp [alookup]
    · have hak : a ≠ k := by
        intro hak
        exact hn.1 ⟨(k, b), h1, by simp [hak]⟩
      simp only [alookup, if_neg hak]
      exact ih hn.2 h1

theorem alookup_append_of_none {κ β : Type} [DecidableEq κ] {l₁ l₂ : List (κ × β)}
    {k : κ} (h : alookup l₁ k = none) : alookup (l₁ ++ l₂) k = alookup l₂ k := by
  induction l₁ with
  | nil => simp
  | cons p l ih =>
    by_cases hp : p.1 = k
    · simp [alookup, hp] at h
    · simp only [alookup, if_neg hp] at h ⊢
      exact ih h

theorem alookup_filter_of_none {κ β : Type} [DecidableEq κ] {l : List (κ × β)} {k : κ}
    {f : κ × β → Bool} (h : alookup l k = none) : alookup (l.filter f) k = none :=
  alookup_eq_none_iff.mpr fun p hp =>
    alookup_eq_none_iff.mp h p (List.mem_of_mem_filter hp)

theorem alookup_drop_of_none {κ β : Type} [DecidableEq κ] {l : List (κ × β)} {k : κ}
    {n : Nat} (h : alookup l k = none) : alookup (l.drop n) k = none :=
  alookup_eq_none_iff.mpr fun p hp =>
    alookup_eq_none_iff.mp h p (List.mem_of_mem_drop hp)

theorem alookup_aset_self {κ β : Type} [DecidableEq κ] (l : List (κ × β)) (k : κ)
    (b : β) : alookup (aset l k b) k = some b := by
  induction l with
  | nil => simp [aset, alookup]
  | cons p l ih => by_cases hp : p.1 = k <;> simp [aset, hp, alookup, ih]

theorem aset_of_none {κ β : Type} [DecidableEq κ] {l : List (κ × β)} {k : κ} (b : β)
    (h : alookup l k = none) : aset l k b = l ++ [(k, b)] := by
  induction l with
  | nil => simp [aset]
  | cons p l ih =>
    by_cases hp : p.1 = k
    · simp [alookup, hp] at h
    · simp only [alookup, if_neg hp] at h
      simp [aset, hp, ih h]

theorem aremove_of_none {κ β : Type} [DecidableEq κ] {l : List (κ × β)} {k : κ}
    (h : alookup l k = none) : aremove l k = l :=
  List.filter_eq_self.mpr fun p hp => by
    simp [alookup_eq_none_iff.mp h p hp]

theorem aremove_aset {κ β : Type} [DecidableEq κ] (l : List (κ × β)) (k : κ) (b : β) :
    aremove (aset l k b) k = aremove l k := by
  induction l with
  | nil => simp [aset, aremove]
  | cons p l ih =>
    by_cases hp : p.1 = k
    · simp [aset, hp, aremove, List.filter_cons]
    · simp only [aremove, ne_eq, decide_not] at ih
      simp [aset, hp, aremove, List.filter_cons]
      exact ih

theorem alookup_aremove_self {κ β : Type} [DecidableEq κ] (l : List (κ × β)) (k : κ) :
    alookup (aremove l k) k = none :=
  alookup_eq_none_iff.mpr fun p hp => by
    have := List.of_mem_filter hp
    simpa using this

theorem mem_aset {κ β : Type} [DecidableEq κ] {l : List (κ × β)} {k : κ} {b : β}
    {q : κ × β} (h : q ∈ aset l k b) : q = (k, b) ∨ q ∈ l := by
  induction l with
  | nil => simpa [aset] using h
  | cons p l ih =>
    by_cases hp : p.1 = k
    · rcases List.mem_cons.mp (by simpa [aset, hp] using h) with h1 | h1
      · exact Or.inl h1
      · exact Or.inr (List.mem_cons_of_mem _ h1)
    · rcases List.mem_cons.mp (by simpa [aset, hp] using h) with h1 | h1
      · exact Or.inr (h1 ▸ List.mem_cons_self _ _)
      · rcases ih h1 with h2 | h2
        · exact Or.inl h2
        · exact Or.inr (List.mem_cons_of_mem _ h2)

theorem keys_aset_of_some {κ β : Type} [DecidableEq κ] {l : List (κ × β)} {k : κ}
    {e : β} (b : β) (h : alookup l k = some e) :
    (aset l k b).map Prod.fst = l.map Prod.fst := by
  induction l with
  | nil => simp [alookup] at h
  | cons p l ih =>
    by_cases hp : p.1 = k
    · simp [aset, hp]
    · simp only [alookup, if_neg hp] at h
      simp [aset, hp, ih h]

theorem moveToEnd_of_some {κ β : Type} [DecidableEq κ] {l : List (κ × β)} {k : κ}
    {v : β} (h : alookup l k = some v) : moveToEnd l k = aremove l k ++ [(k, v)] := by
  simp [moveToEnd, h]

theorem aremove_append {κ β : Type} [DecidableEq κ] (l₁ l₂ : List (κ × β)) (k : κ) :
    aremove (l₁ ++ l₂) k = aremove l₁ k ++ aremove l₂ k :=
  List.filter_append _ _

/-! ### `TTLCache` and `CacheService` behaviour lemmas -/

theorem cleanup_noop {κ α : Type} [DecidableEq κ] {c : TTLCache κ α} {now : Nat}
    (h : ∀ p ∈ c.expiry, now < p.2) : cleanupExpired c now = c := by
  have hks : c.expiry.filter (fun p => decide (p.2 ≤ now)) = [] :=
    List.filter_eq_nil_iff.mpr fun p hp => by simpa using Nat.not_le.mpr (h p hp)
  obtain ⟨ms, dt, da, ex⟩ := c
  simp only [cleanupExpired, hks, List.map_nil]
  congr 1
  · exact List.filter_eq_self.mpr fun p _ => by simp
  · exact List.filter_eq_self.mpr fun p hp => by simpa using h p hp

theorem set_fields {κ α : Type} [DecidableEq κ] (c : TTLCache κ α) (k : κ)
    (v : Option α) (ttl : Option Nat) (now : Nat) :
    (c.set k v ttl now).data =
      (aremove (cleanupExpired c now).data k ++ [(k, v)]).drop
        ((aremove (cleanupExpired c now).data k).length + 1 - c.max_size) ∧
    (c.set k v ttl now).expiry =
      aset (cleanupExpired c now).expiry k (now + ttlSeconds c ttl) ∧
    (c.set k v ttl now).max_size = c.max_size ∧
    (c.set k v ttl now).default_ttl = c.default_ttl := by
  have h1 : alookup (aset (cleanupExpired c now).data k v) k = some v :=
    alookup_aset_self _ _ _
  simp only [TTLCache.set]
  rw [moveToEnd_of_some h1, aremove_aset]
  refine ⟨?_, rfl, rfl, rfl⟩
  rw [show (cleanupExpired c now).max_size = c.max_size from rfl]
  simp

theorem ttl_get_after_set {κ α : Type} [DecidableEq κ] (c : TTLCache κ α) (k : κ)
    (v : Option α) (ttl : Option Nat) (now : Nat) (hm : 0 < c.max_size)
    (ht : 0 < ttlSeconds c ttl) :
    ((c.set k v ttl now).get k now).1 = v := by
  obtain ⟨hdata, hexp, hmax, hdef⟩ := set_fields c k v ttl now
  have hd : (c.set k v ttl now).data =
      (aremove (cleanupExpired c now).data k).drop
        ((aremove (cleanupExpired c now).data k).length + 1 - c.max_size) ++ [(k, v)] := by
    rw [hdata, List.drop_append_of_le_length (by omega)]
  have hclean : cleanupExpired (c.set k v ttl now) now = c.set k v ttl now := by
    apply cleanup_noop
    intro p hp
    rw [hexp] at hp
    rcases mem_aset hp with h1 | h1
    · rw [h1]
      exact Nat.lt_add_of_pos_right ht
    · have := List.of_mem_filter h1
      simpa using this
  have hlook : alookup (c.set k v ttl now).data k = some v := by
    rw [hd, alookup_append_of_none (alookup_drop_of_none (alookup_aremove_self _ _))]
    simp [alookup]
  have hlooke : alookup (c.set k v ttl now).expiry k = some (now + ttlSeconds c ttl) := by
    rw [hexp]
    exact alookup_aset_self _ _ _
  simp [TTLCache.get, hclean, hlook, hlooke, Nat.lt_add_of_pos_right ht]

theorem ttl_get_after_set_expired {κ α : Type} [DecidableEq κ] (c : TTLCache κ α)
    (k : κ) (v : Option α) (ttl : Option Nat) (now now' : Nat)
    (h2 : now + ttlSeconds c ttl ≤ now') :
    ((c.set k v ttl now).get k now').1 = none ∧
    alookup ((c.set k v ttl now).get k now').2.data k = none := by
  obtain ⟨hdata, hexp, hmax, hdef⟩ := set_fields c k v ttl now
  have hkmem : (k, now + ttlSeconds c ttl) ∈ (c.set k v ttl now).expiry :=
    alookup_mem (by rw [hexp]; exact alookup_aset_self _ _ _)
  have hkks : k ∈ ((c.set k v ttl now).expiry.filter
      (fun p => decide (p.2 ≤ now'))).map Prod.fst :=
    List.mem_map.mpr ⟨(k, now + ttlSeconds c ttl),
      List.mem_filter.mpr ⟨hkmem, by simpa using h2⟩, rfl⟩
  have hnone : alookup (cleanupExpired (c.set k v ttl now) now').data k = none := by
    refine alookup_eq_none_iff.mpr fun p hp => ?_
    simp only [cleanupExpired] at hp
    have := List.of_mem_filter hp
    intro hpk
    rw [hpk] at this
    simp only [decide_eq_true_eq] at this
    exact this hkks
  constructor
  · simp [TTLCache.get, hnone]
  · simp [TTLCache.get, hnone]

theorem service_set_memory {κ α : Type} [DecidableEq κ] (s : CacheService κ α)
    (k : κ) (v : Option α) (ttl : Option Nat) (now : Nat) :
    (s.set k v ttl now).2.memory = s.memory.set k v ttl now :=
  rfl

theorem service_set_pg {κ α : Type} [DecidableEq κ] (s : CacheService κ α)
    (k : κ) (v : Option α) (ttl : Option Nat) (now : Nat) :
    (s.set k v ttl now).2.pg = pgSet s.pg k v ttl now :=
  rfl

theorem pg_get_after_set {κ α : Type} [DecidableEq κ]
    (rows : List (κ × Option α × Option Nat)) (k : κ) (v : Option α)
    (ttl : Option Nat) (now : Nat) :
    pgGet (pgSet rows k v ttl now) k now = v := by
  unfold pgGet pgSet
  cases ttl with
  | none => simp [alookup_aset_self]
  | some t =>
    by_cases h0 : t = 0
    · simp [h0, alookup_aset_self]
    · simp [h0, alookup_aset_self]

theorem service_get_after_set {κ α : Type} [DecidableEq κ] (s : CacheService κ α)
    (k : κ) (v : Option α) (ttl : Option Nat) (now : Nat)
    (hm : 0 < s.memory.max_size) (ht : 0 < ttlSeconds s.memory ttl) :
    ((s.set k v ttl now).2.get k now).1 = v ∧
    pgGet (s.set k v ttl now).2.pg k now = v ∧
    ((s.set k v ttl now).2.memory.get k now).1 = v := by
  have hmem : ((s.set k v ttl now).2.memory.get k now).1 = v := by
    rw [service_set_memory]
    exact ttl_get_after_set _ _ _ _ _ hm ht
  have hpg : pgGet (s.set k v ttl now).2.pg k now = v := by
    rw [service_set_pg]
    exact pg_get_after_set _ _ _ _ _
  refine ⟨?_, hpg, hmem⟩
  simp only [CacheService.get]
  rw [hmem]
  cases v with
  | some x => simp
  | none => rw [hpg]

theorem service_get_eq_of_none {κ α : Type} [DecidableEq κ] (s : CacheService κ α)
    (k : κ) (now : Nat) (h1 : (s.memory.get k now).1 = none)
    (h2 : pgGet s.pg k now = none) :
    s.get k now = (none, { s with memory := (s.memory.get k now).2 }) := by
  simp only [CacheService.get]
  rw [h1, h2]

/-! ## Claims -/

/-- C1: at the tiered-cache interface, `set(k, v, ttl)` followed immediately by
`get(k)` returns a value equal to `v` (also when `v` is Python `None`); and at
any time from `now + ttl` on, `get(k)` returns absent, the read itself having
removed the expired entry from the memory tier. -/
theorem C1_set_get_roundtrip_and_expiry {κ α : Type} [DecidableEq κ]
    (s : CacheService κ α) (k : κ) (v : Option α) (ttl now : Nat)
    (httl : 0 < ttl) (hm : 0 < s.memory.max_size) :
    ((s.set k v (some ttl) now).2.get k now).1 = v ∧
    (∀ now', now + ttl ≤ now' →
      ((s.set k v (some ttl) now).2.get k now').1 = none ∧
      alookup ((s.set k v (some ttl) now).2.get k now').2.memory.data k = none) := by
  have hne : ttl ≠ 0 := by omega
  have hts : ttlSeconds s.memory (some ttl) = ttl := by simp [ttlSeconds, hne]
  constructor
  · exact (service_get_after_set s k v (some ttl) now hm (by rw [hts]; exact httl)).1
  · intro now' h'
    have hexp := ttl_get_after_set_expired s.memory k v (some ttl) now now'
      (by rw [hts]; exact h')
    have hmemn : ((s.set k v (some ttl) now).2.memory.get k now').1 = none := by
      rw [service_set_memory]
      exact hexp.1
    have hpgn : pgGet (s.set k v (some ttl) now).2.pg k now' = none := by
      rw [service_set_pg]
      simp [pgSet, pgGet, alookup_aset_self, hne, show ¬ now' < now + ttl by omega]
    have hres := service_get_eq_of_none _ k now' hmemn hpgn
    rw [hres]
    refine ⟨rfl, ?_⟩
    show alookup ((s.set k v (some ttl) now).2.memory.get k now').2.data k = none
    rw [service_set_memory]
    exact hexp.2

/-- C1 witness: concrete round trip and expiry at `ttl = 60`. -/
theorem C1_witness :
    (((emptyCache Nat Nat 10 3600).set 1 (some 5) (some 60) 0).2.get 1 0).1 = some 5 ∧
    (((emptyCache Nat Nat 10 3600).set 1 (some 5) (some 60) 0).2.get 1 60).1 = none ∧
    alookup
      (((emptyCache Nat Nat 10 3600).set 1 (some 5) (some 60) 0).2.get 1 60).2.memory.data
      1 = none := by
  refine ⟨(C1_set_get_roundtrip_and_expiry (emptyCache Nat Nat 10 3600) 1 (some 5) 60 0
      (by decide) (by decide)).1,
    ((C1_set_get_roundtrip_and_expiry (emptyCache Nat Nat 10 3600) 1 (some 5) 60 0
      (by decide) (by decide)).2 60 (by decide)).1,
    ((C1_set_get_roundtrip_and_expiry (emptyCache Nat Nat 10 3600) 1 (some 5) 60 0
      (by decide) (by decide)).2 60 (by decide)).2⟩

theorem alookup_append_left_of_some {κ β : Type} [DecidableEq κ]
    {l₁ l₂ : List (κ × β)} {k : κ} {b : β} (h : alookup l₁ k = some b) :
    alookup (l₁ ++ l₂) k = some b := by
  induction l₁ with
  | nil => simp [alookup] at h
  | cons p l ih =>
    by_cases hp : p.1 = k
    · simp only [alookup, if_pos hp] at h ⊢
      exact h
    · simp only [alookup, if_neg hp] at h ⊢
      exact ih h

/-- Filling a cache whose entries all carry expiry `now + default_ttl` with
fresh distinct keys, without exceeding capacity, appends them in insertion
order (and no eviction or expiry happens). -/
theorem insertSeq_spec {κ α : Type} [DecidableEq κ] (now : Nat) :
    ∀ (L : List (κ × Option α)) (c : TTLCache κ α),
      0 < c.default_ttl →
      c.expiry = c.data.map (fun p => (p.1, now + c.default_ttl)) →
      ((c.data ++ L).map Prod.fst).Nodup →
      c.data.length + L.length ≤ c.max_size →
      (insertSeq c L now).data = c.data ++ L ∧
      (insertSeq c L now).expiry =
        (c.data ++ L).map (fun p => (p.1, now + c.default_ttl)) ∧
      (insertSeq c L now).max_size = c.max_size ∧
      (insertSeq c L now).default_ttl = c.default_ttl := by
  intro L
  induction L with
  | nil =>
    intro c h1 h2 h3 h4
    exact ⟨by simp [insertSeq], by simpa [insertSeq] using h2, rfl, rfl⟩
  | cons p L ih =>
    intro c hT hexp hnd hlen
    obtain ⟨k, v⟩ := p
    have hclean : cleanupExpired c now = c :=
      cleanup_noop (by
        intro q hq
        rw [hexp] at hq
        obtain ⟨r, _, rfl⟩ := List.mem_map.mp hq
        exact Nat.lt_add_of_pos_right hT)
    have hnd' : (c.data.map Prod.fst).Nodup ∧ (k :: L.map Prod.fst).Nodup ∧
        (c.data.map Prod.fst).Disjoint (k :: L.map Prod.fst) := by
      rw [List.map_append, List.map_cons] at hnd
      exact List.nodup_append.mp hnd
    have hkabs : alookup c.data k = none :=
      alookup_eq_none_iff.mpr fun q hq hqk =>
        hnd'.2.2 (List.mem_map.mpr ⟨q, hq, hqk⟩) (List.mem_cons_self _ _)
    have hkabs_e : alookup c.expiry k = none := by
      rw [hexp]
      refine alookup_eq_none_iff.mpr fun q hq => ?_
      obtain ⟨r, hr, rfl⟩ := List.mem_map.mp hq
      exact fun hrk =>
        hnd'.2.2 (List.mem_map.mpr ⟨r, hr, hrk⟩) (List.mem_cons_self _ _)
    obtain ⟨hd, he, hmx, hdt⟩ := set_fields c k v none now
    rw [hclean] at hd he
    rw [aremove_of_none hkabs] at hd
    have hlen1 : c.data.length + 1 ≤ c.max_size := by
      simp only [List.length_cons] at hlen
      omega
    rw [Nat.sub_eq_zero_of_le hlen1, List.drop_zero] at hd
    rw [aset_of_none _ hkabs_e, hexp] at he
    have hts : ttlSeconds c none = c.default_ttl := rfl
    rw [hts] at he
    have he' : (c.set k v none now).expiry =
        (c.data ++ [(k, v)]).map (fun p => (p.1, now + c.default_ttl)) := by
      rw [he, List.map_append]
      rfl
    have hrec := ih (c.set k v none now)
      (by rw [hdt]; exact hT)
      (by rw [hd, he', hdt])
      (by
        rw [hd]
        have : (c.data ++ [(k, v)]) ++ L = c.data ++ (k, v) :: L := by simp
        rw [this]
        exact hnd)
      (by
        rw [hd, hmx]
        simp only [List.length_append, List.length_cons, List.length_nil] at hlen ⊢
        omega)
    obtain ⟨r1, r2, r3, r4⟩ := hrec
    have hfold : insertSeq c ((k, v) :: L) now = insertSeq (c.set k v none now) L now := rfl
    rw [hfold, r1, r2, r3, r4, hd, hmx, hdt]
    refine ⟨by simp, by simp, rfl, rfl⟩

/-- C2: in a memory tier of capacity `max_size = Lr.length + 2`, after
inserting the distinct keys `k0, k1, Lr…` (filling the cache), reading
`k0`, and inserting the fresh key `knew`, exactly the least-recently-used
key `k1` is evicted; the oldest-inserted key `k0` survives (the `get`
moved it to most-recent position), every other key is still present with
its value, and the cache again holds `max_size` entries. -/
theorem C2_lru_eviction {κ α : Type} [DecidableEq κ]
    (k0 k1 knew : κ) (v0 v1 vnew : Option α) (Lr : List (κ × Option α))
    (T now : Nat) (hT : 0 < T)
    (hk01 : k0 ≠ k1) (hk0n : k0 ≠ knew) (hk1n : k1 ≠ knew)
    (h0L : ∀ p ∈ Lr, p.1 ≠ k0) (h1L : ∀ p ∈ Lr, p.1 ≠ k1)
    (hnL : ∀ p ∈ Lr, p.1 ≠ knew) (hLnd : (Lr.map Prod.fst).Nodup) :
    (lruScenario k0 k1 knew v0 v1 vnew Lr T now).1 = v0 ∧
    alookup (lruScenario k0 k1 knew v0 v1 vnew Lr T now).2.data k1 = none ∧
    alookup (lruScenario k0 k1 knew v0 v1 vnew Lr T now).2.data k0 = some v0 ∧
    (∀ p ∈ Lr, alookup (lruScenario k0 k1 knew v0 v1 vnew Lr T now).2.data p.1 =
      some p.2) ∧
    alookup (lruScenario k0 k1 knew v0 v1 vnew Lr T now).2.data knew = some vnew ∧
    (lruScenario k0 k1 knew v0 v1 vnew Lr T now).2.data.length = Lr.length + 2 := by
  have hfill := insertSeq_spec now ((k0, v0) :: (k1, v1) :: Lr)
    (⟨Lr.length + 2, T, [], []⟩ : TTLCache κ α) hT rfl
    (by
      simp only [List.nil_append, List.map_cons, List.nodup_cons, List.mem_cons,
        List.mem_map]
      refine ⟨?_, ?_, hLnd⟩
      · rintro (h | ⟨p, hp, hpk⟩)
        · exact hk01 h
        · exact h0L p hp hpk
      · rintro ⟨p, hp, hpk⟩
        exact h1L p hp hpk)
    (by simp)
  obtain ⟨hc1d, hc1e, hc1m, hc1t⟩ := hfill
  rw [List.nil_append] at hc1d hc1e
  have hcl1 : cleanupExpired (insertSeq (⟨Lr.length + 2, T, [], []⟩ : TTLCache κ α)
      ((k0, v0) :: (k1, v1) :: Lr) now) now =
      insertSeq (⟨Lr.length + 2, T, [], []⟩ : TTLCache κ α)
        ((k0, v0) :: (k1, v1) :: Lr) now :=
    cleanup_noop (by
      intro p hp
      rw [hc1e] at hp
      obtain ⟨r, _, rfl⟩ := List.mem_map.mp hp
      exact Nat.lt_add_of_pos_right hT)
  have hlk : alookup (insertSeq (⟨Lr.length + 2, T, [], []⟩ : TTLCache κ α)
      ((k0, v0) :: (k1, v1) :: Lr) now).data k0 = some v0 := by
    rw [hc1d]
    simp [alookup]
  have hlke : alookup (insertSeq (⟨Lr.length + 2, T, [], []⟩ : TTLCache κ α)
      ((k0, v0) :: (k1, v1) :: Lr) now).expiry k0 = some (now + T) := by
    rw [hc1e]
    simp [alookup]
  have hrem : aremove ((k0, v0) :: (k1, v1) :: Lr) k0 = (k1, v1) :: Lr := by
    have h2 : aremove ((k1, v1) :: Lr) k0 = (k1, v1) :: Lr :=
      aremove_of_none (alookup_eq_none_iff.mpr (by
        intro p hp
        rcases List.mem_cons.mp hp with h1 | h1
        · rw [h1]
          exact Ne.symm hk01
        · exact h0L p h1))
    calc aremove ((k0, v0) :: (k1, v1) :: Lr) k0
        = aremove ((k1, v1) :: Lr) k0 := by
          simp [aremove, List.filter_cons]
      _ = (k1, v1) :: Lr := h2
  have hmove : moveToEnd (insertSeq (⟨Lr.length + 2, T, [], []⟩ : TTLCache κ α)
      ((k0, v0) :: (k1, v1) :: Lr) now).data k0 = (k1, v1) :: Lr ++ [(k0, v0)] := by
    rw [moveToEnd_of_some hlk, hc1d, hrem]
  have hget : (insertSeq (⟨Lr.length + 2, T, [], []⟩ : TTLCache κ α)
      ((k0, v0) :: (k1, v1) :: Lr) now).get k0 now =
      (v0, { insertSeq (⟨Lr.length + 2, T, [], []⟩ : TTLCache κ α)
          ((k0, v0) :: (k1, v1) :: Lr) now with
        data := (k1, v1) :: Lr ++ [(k0, v0)] }) := by
    simp only [TTLCache.get, hcl1, hlk, hlke, hmove]
    rw [if_pos (Nat.lt_add_of_pos_right hT)]
  simp only [lruScenario, hget]
  refine ⟨by trivial, ?_⟩
  obtain ⟨hd3, he3, hm3, ht3⟩ := set_fields
    ({ insertSeq (⟨Lr.length + 2, T, [], []⟩ : TTLCache κ α)
        ((k0, v0) :: (k1, v1) :: Lr) now with
      data := (k1, v1) :: Lr ++ [(k0, v0)] }) knew vnew none now
  have hcl2 : cleanupExpired
      ({ insertSeq (⟨Lr.length + 2, T, [], []⟩ : TTLCache κ α)
          ((k0, v0) :: (k1, v1) :: Lr) now with
        data := (k1, v1) :: Lr ++ [(k0, v0)] }) now =
      ({ insertSeq (⟨Lr.length + 2, T, [], []⟩ : TTLCache κ α)
          ((k0, v0) :: (k1, v1) :: Lr) now with
        data := (k1, v1) :: Lr ++ [(k0, v0)] }) :=
    cleanup_noop (by
      intro p hp
      have hp2 : p ∈ (insertSeq (⟨Lr.length + 2, T, [], []⟩ : TTLCache κ α)
          ((k0, v0) :: (k1, v1) :: Lr) now).expiry := hp
      rw [hc1e] at hp2
      obtain ⟨r, _, rfl⟩ := List.mem_map.mp hp2
      exact Nat.lt_add_of_pos_right hT)
  rw [hcl2] at hd3
  have habs : alookup ((k1, v1) :: Lr ++ [(k0, v0)]) knew = none := by
    refine alookup_eq_none_iff.mpr fun p hp => ?_
    rcases List.mem_cons.mp hp with h1 | h1
    · rw [h1]
      exact hk1n
    · rcases List.mem_append.mp h1 with h2 | h2
      · exact hnL p h2
      · rcases List.mem_singleton.mp h2 with rfl
        exact hk0n
  rw [aremove_of_none habs] at hd3
  have hlen2 : ((k1, v1) :: Lr ++ [(k0, v0)]).length = Lr.length + 2 := by
    simp
  have hdrop : (((k1, v1) :: Lr ++ [(k0, v0)]) ++ [(knew, vnew)]).drop
      (((k1, v1) :: Lr ++ [(k0, v0)]).length + 1 -
        ({ insertSeq (⟨Lr.length + 2, T, [], []⟩ : TTLCache κ α)
            ((k0, v0) :: (k1, v1) :: Lr) now with
          data := (k1, v1) :: Lr ++ [(k0, v0)] }).max_size) =
      Lr ++ [(k0, v0), (knew, vnew)] := by
    have hmsz : ({ insertSeq (⟨Lr.length + 2, T, [], []⟩ : TTLCache κ α)
        ((k0, v0) :: (k1, v1) :: Lr) now with
      data := (k1, v1) :: Lr ++ [(k0, v0)] }).max_size = Lr.length + 2 := hc1m
    rw [hmsz, hlen2]
    have h1 : Lr.length + 2 + 1 - (Lr.length + 2) = 1 := by omega
    simp only [List.cons_append, h1, List.drop_succ_cons, List.drop_zero,
      List.append_assoc, List.singleton_append, List.nil_append]
  rw [hdrop] at hd3
  have hLrn : ∀ p ∈ Lr, (p.1 ≠ k1) ∧ (p.1 ≠ k0) ∧ (p.1 ≠ knew) :=
    fun p hp => ⟨h1L p hp, h0L p hp, hnL p hp⟩
  refine ⟨?_, ?_, ?_, ?_, ?_⟩
  · rw [hd3]
    refine alookup_eq_none_iff.mpr fun p hp => ?_
    rcases List.mem_append.mp hp with h2 | h2
    · exact h1L p h2
    · rcases List.mem_cons.mp h2 with rfl | h3
      · exact hk01
      · rcases List.mem_singleton.mp h3 with rfl
        exact Ne.symm hk1n
  · rw [hd3]
    rw [alookup_append_of_none (alookup_eq_none_iff.mpr h0L)]
    simp [alookup]
  · intro p hp
    rw [hd3]
    exact alookup_append_left_of_some (alookup_of_mem_nodup hLnd hp)
  · rw [hd3]
    rw [alookup_append_of_none (alookup_eq_none_iff.mpr hnL)]
    simp [alookup, hk0n]
  · rw [hd3]
    simp

/-- C2 witness: the LRU scenario at capacity 3 with keys 0,1,3 and new key 2:
key 1 (least recently used) is evicted, keys 0, 3 and 2 survive. -/
theorem C2_witness :
    (lruScenario (0 : Nat) 1 2 (some (10 : Nat)) (some 11) (some 12)
      [(3, some 13)] 3600 0).1 = some 10 ∧
    alookup (lruScenario (0 : Nat) 1 2 (some (10 : Nat)) (some 11) (some 12)
      [(3, some 13)] 3600 0).2.data 1 = none ∧
    alookup (lruScenario (0 : Nat) 1 2 (some (10 : Nat)) (some 11) (some 12)
      [(3, some 13)] 3600 0).2.data 0 = some (some 10) ∧
    (∀ p ∈ [((3 : Nat), some (13 : Nat))],
      alookup (lruScenario (0 : Nat) 1 2 (some (10 : Nat)) (some 11) (some 12)
        [(3, some 13)] 3600 0).2.data p.1 = some p.2) ∧
    alookup (lruScenario (0 : Nat) 1 2 (some (10 : Nat)) (some 11) (some 12)
      [(3, some 13)] 3600 0).2.data 2 = some (some 12) ∧
    (lruScenario (0 : Nat) 1 2 (some (10 : Nat)) (some 11) (some 12)
      [(3, some 13)] 3600 0).2.data.length = 3 :=
  C2_lru_eviction 0 1 2 (some 10) (some 11) (some 12) [(3, some 13)] 3600 0
    (by decide) (by decide) (by decide) (by decide) (by decide) (by decide)
    (by decide) (by decide)

/-- C3 (amended): from a state where the key is absent, two sequential
`get_or_set` calls whose compute function returns a non-`None` value invoke
the compute function exactly once — the first call computes and caches, the
second is a pure cache hit returning the same value. -/
theorem C3_get_or_set_once {κ α : Type} [DecidableEq κ] (k : κ) (x : α)
    (m T : Nat) (t : Option Nat) (now : Nat) (hm : 0 < m) (hT : 0 < T) :
    ((emptyCache κ α m T).get_or_set k (Except.ok (some x)) t now).2.2 = true ∧
    ((emptyCache κ α m T).get_or_set k (Except.ok (some x)) t now).1 = some x ∧
    (((emptyCache κ α m T).get_or_set k (Except.ok (some x)) t now).2.1.get_or_set k
      (Except.ok (some x)) t now).2.2 = false ∧
    (((emptyCache κ α m T).get_or_set k (Except.ok (some x)) t now).2.1.get_or_set k
      (Except.ok (some x)) t now).1 = some x := by
  have hfirst : (emptyCache κ α m T).get_or_set k (Except.ok (some x)) t now =
      (some x, ((emptyCache κ α m T).set k (some x) t now).2, true) := rfl
  have hts : 0 < ttlSeconds (emptyCache κ α m T).memory t := by
    cases t with
    | none => exact hT
    | some tt =>
      by_cases h0 : tt = 0
      · simpa [ttlSeconds, h0] using hT
      · simpa [ttlSeconds, h0] using Nat.pos_of_ne_zero h0
  have hget := (service_get_after_set (emptyCache κ α m T) k (some x) t now hm hts).1
  have hsecond : (((emptyCache κ α m T).set k (some x) t now).2).get_or_set k
      (Except.ok (some x)) t now =
      (some x, ((((emptyCache κ α m T).set k (some x) t now).2).get k now).2, false) := by
    simp only [CacheService.get_or_set]
    rw [hget]
  rw [hfirst, hsecond]
  exact ⟨rfl, rfl, rfl, rfl⟩

/-- C3 counterexample: a compute function that returns `None` is invoked by
both of two sequential `get_or_set` calls (a `None` result is never cached),
refuting "invokes compute_fn exactly once" as claimed for every compute
function. -/
theorem C3_counterexample :
    ((emptyCache Nat Nat 10000 3600).get_or_set 0 (Except.ok none) none 0).2.2 = true ∧
    (((emptyCache Nat Nat 10000 3600).get_or_set 0
      (Except.ok none) none 0).2.1.get_or_set 0 (Except.ok none) none 0).2.2 = true := by
  decide

/-- C3 witness: concrete non-`None` compute at key 1. -/
theorem C3_witness :
    ((emptyCache Nat Nat 10 3600).get_or_set 1 (Except.ok (some 7)) (some 60) 0).2.2 =
      true ∧
    ((emptyCache Nat Nat 10 3600).get_or_set 1 (Except.ok (some 7)) (some 60) 0).1 =
      some 7 ∧
    (((emptyCache Nat Nat 10 3600).get_or_set 1 (Except.ok (some 7))
      (some 60) 0).2.1.get_or_set 1 (Except.ok (some 7)) (some 60) 0).2.2 = false ∧
    (((emptyCache Nat Nat 10 3600).get_or_set 1 (Except.ok (some 7))
      (some 60) 0).2.1.get_or_set 1 (Except.ok (some 7)) (some 60) 0).1 = some 7 :=
  C3_get_or_set_once 1 7 10 3600 (some 60) 0 (by decide) (by decide)

/-- C10: a stored `None` is indistinguishable from absence at the tiered-cache
interface: after `set(k, None)`, `get(k)` returns `None` and `exists(k)` is
false, exactly as for a key absent from both tiers; and `get_or_set` with a
compute function that returns `None` (or raises) re-invokes it on every call,
because `None` results are never written to either tier. -/
theorem C10_none_indistinguishable {κ α : Type} [DecidableEq κ] :
    (∀ (s : CacheService κ α) (k : κ) (t : Option Nat) (now : Nat),
      0 < s.memory.max_size → 0 < ttlSeconds s.memory t →
      ((s.set k none t now).2.get k now).1 = none ∧
      (s.set k none t now).2.exists k now = false) ∧
    (∀ (s : CacheService κ α) (k : κ) (now : Nat),
      alookup s.memory.data k = none → alookup s.pg k = none →
      (s.get k now).1 = none ∧ s.exists k now = false) ∧
    (∀ (k : κ) (m T : Nat) (t : Option Nat) (now : Nat),
      ((emptyCache κ α m T).get_or_set k (Except.ok none) t now).2.2 = true ∧
      ((emptyCache κ α m T).get_or_set k (Except.ok none) t now).1 = none ∧
      ((emptyCache κ α m T).get_or_set k (Except.ok none) t now).2.1 =
        emptyCache κ α m T ∧
      (((emptyCache κ α m T).get_or_set k (Except.ok none) t now).2.1.get_or_set k
        (Except.ok none) t now).2.2 = true) ∧
    (∀ (k : κ) (m T : Nat) (t : Option Nat) (now : Nat),
      ((emptyCache κ α m T).get_or_set k (Except.error ()) t now).2.2 = true ∧
      ((emptyCache κ α m T).get_or_set k (Except.error ()) t now).1 = none) := by
  refine ⟨?_, ?_, ?_, ?_⟩
  · intro s k t now hm ht
    have h := service_get_after_set s k none t now hm ht
    refine ⟨h.1, ?_⟩
    simp only [CacheService.exists]
    rw [h.2.2, h.2.1]
    rfl
  · intro s k now h1 h2
    have hcl : alookup (cleanupExpired s.memory now).data k = none :=
      alookup_filter_of_none h1
    have hmem : (s.memory.get k now).1 = none := by
      simp only [TTLCache.get]
      rw [hcl]
    have hpg : pgGet s.pg k now = none := by
      simp [pgGet, h2]
    refine ⟨?_, ?_⟩
    · rw [service_get_eq_of_none s k now hmem hpg]
    · simp only [CacheService.exists]
      rw [hmem, hpg]
      rfl
  · intro k m T t now
    exact ⟨rfl, rfl, rfl, rfl⟩
  · intro k m T t now
    exact ⟨rfl, rfl⟩

/-- C10 witness: concrete instances of all four parts at key 1. -/
theorem C10_witness :
    (((emptyCache Nat Nat 10 3600).set 1 none (some 60) 0).2.get 1 0).1 = none ∧
    ((emptyCache Nat Nat 10 3600).set 1 none (some 60) 0).2.exists 1 0 = false ∧
    ((emptyCache Nat Nat 10 3600).get 1 0).1 = none ∧
    (emptyCache Nat Nat 10 3600).exists 1 0 = false ∧
    ((emptyCache Nat Nat 10 3600).get_or_set 1 (Except.ok none) (some 60) 0).2.2 =
      true ∧
    (((emptyCache Nat Nat 10 3600).get_or_set 1 (Except.ok none)
      (some 60) 0).2.1.get_or_set 1 (Except.ok none) (some 60) 0).2.2 = true ∧
    ((emptyCache Nat Nat 10 3600).get_or_set 1 (Except.error ()) (some 60) 0).1 =
      none := by
  have h := @C10_none_indistinguishable Nat Nat _
  have h1 := h.1 (emptyCache Nat Nat 10 3600) 1 (some 60) 0 (by decide) (by decide)
  have h2 := h.2.1 (emptyCache Nat Nat 10 3600) 1 0 (by decide) (by decide)
  have h3 := h.2.2.1 1 10 3600 (some 60) 0
  have h4 := h.2.2.2 1 10 3600 (some 60) 0
  exact ⟨h1.1, h1.2, h2.1, h2.2, h3.1, h3.2.2.2, h4.2⟩

theorem pat1Scan_single {w : List Char} {ws : List (List Char)} (hw : w ∈ ws) :
    ∀ (prev : Option Char) (s : List Char),
      pat1Scan [w] prev s = true → pat1Scan ws prev s = true := by
  intro prev s
  induction s generalizing prev with
  | nil => simp [pat1Scan]
  | cons c rest ih =>
    intro h
    simp only [pat1Scan, Bool.or_eq_true] at h ⊢
    rcases h with h | h
    · left
      simp only [List.any_eq_true] at h ⊢
      obtain ⟨w2, hw2, hcond⟩ := h
      rcases List.mem_singleton.mp hw2 with rfl
      exact ⟨w2, hw, hcond⟩
    · exact Or.inr (ih (some c) h)

/-- C4 (amended): `analyze_query` returns `complex` whenever any of the five
complex patterns matches the lower-cased stripped query, regardless of
length; otherwise it classifies by word count (≤ 3 → simple, ≤ 9 →
moderate, else complex); and any query in which the word "compare" is
followed, with no intervening newline, by a question mark is classified
`complex` regardless of length. -/
theorem C4_classify (q : List Char) :
    (complexMatch (pyLower (pyStrip q)) = true →
      analyze_query q = QueryComplexity.complex) ∧
    (complexMatch (pyLower (pyStrip q)) = false →
      ((pySplitWords (pyStrip q)).length ≤ 3 →
        analyze_query q = QueryComplexity.simple) ∧
      (3 < (pySplitWords (pyStrip q)).length →
        (pySplitWords (pyStrip q)).length ≤ 9 →
        analyze_query q = QueryComplexity.moderate) ∧
      (9 < (pySplitWords (pyStrip q)).length →
        analyze_query q = QueryComplexity.complex)) ∧
    (pat1Scan ["compare".data] none (pyLower (pyStrip q)) = true →
      analyze_query q = QueryComplexity.complex) := by
  refine ⟨?_, ?_, ?_⟩
  · intro h
    simp [analyze_query, h]
  · intro h
    refine ⟨?_, ?_, ?_⟩
    · intro hw
      simp [analyze_query, h, simple_threshold, hw]
    · intro hw1 hw2
      simp [analyze_query, h, simple_threshold, moderate_threshold,
        Nat.not_le.mpr hw1, hw2]
    · intro hw
      have h3 : ¬ (pySplitWords (pyStrip q)).length ≤ 3 := by omega
      have h9 : ¬ (pySplitWords (pyStrip q)).length ≤ 9 := by omega
      simp [analyze_query, h, simple_threshold, moderate_threshold, h3, h9]
  · intro h
    have h1 : pat1Scan kwPat1 none (pyLower (pyStrip q)) = true :=
      pat1Scan_single (by decide) none _ h
    have hc : complexMatch (pyLower (pyStrip q)) = true := by
      simp [complexMatch, h1]
    simp [analyze_query, hc]

/-- C4 counterexample: "? compare" contains the word "compare" and a question
mark, yet is classified `simple` — the code's regex only fires when the `?`
comes after the keyword. -/
theorem C4_counterexample :
    analyze_query "? compare".data = QueryComplexity.simple ∧
    "? compare".data = "? ".data ++ "compare".data ∧
    '?' ∈ "? compare".data := by
  decide

/-- C4 witness: concrete classifications in each regime. -/
theorem C4_witness :
    analyze_query "how does it work?".data = QueryComplexity.complex ∧
    analyze_query "hello there".data = QueryComplexity.simple ∧
    analyze_query "What is the capital of France?".data = QueryComplexity.moderate ∧
    analyze_query "one two three four five six seven eight nine ten".data =
      QueryComplexity.complex ∧
    analyze_query "compare apples to oranges please sir?".data =
      QueryComplexity.complex := by
  refine ⟨?_, ?_, ?_, ?_, ?_⟩
  · exact (C4_classify _).1 (by decide)
  · exact ((C4_classify _).2.1 (by decide)).1 (by decide)
  · exact ((C4_classify _).2.1 (by decide)).2.1 (by decide) (by decide)
  · exact ((C4_classify _).2.1 (by decide)).2.2 (by decide)
  · exact (C4_classify _).2.2 (by decide)

theorem mem_dedupPass {m : ℚ} :
    ∀ {docs : List RDoc} {seen : List (List Char)} {d : RDoc},
      d ∈ dedupPass m docs seen → d ∈ docs ∧ m ≤ docScore d := by
  intro docs
  induction docs with
  | nil =>
    intro seen d h
    simp [dedupPass] at h
  | cons a rest ih =>
    intro seen d h
    by_cases h1 : docScore a < m
    · rw [show dedupPass m (a :: rest) seen = dedupPass m rest seen by
        simp [dedupPass, h1]] at h
      obtain ⟨hm, hs⟩ := ih h
      exact ⟨List.mem_cons_of_mem _ hm, hs⟩
    · by_cases h2 : dedupKey a ∈ seen
      · rw [show dedupPass m (a :: rest) seen = dedupPass m rest seen by
          simp [dedupPass, h1, h2]] at h
        obtain ⟨hm, hs⟩ := ih h
        exact ⟨List.mem_cons_of_mem _ hm, hs⟩
      · rw [show dedupPass m (a :: rest) seen =
            a :: dedupPass m rest (dedupKey a :: seen) by
          simp [dedupPass, h1, h2]] at h
        rcases List.mem_cons.mp h with rfl | h3
        · exact ⟨List.mem_cons_self _ _, not_lt.mp h1⟩
        · obtain ⟨hm, hs⟩ := ih h3
          exact ⟨List.mem_cons_of_mem _ hm, hs⟩

theorem dedupPass_keys (m : ℚ) :
    ∀ (docs : List RDoc) (seen : List (List Char)),
      ((dedupPass m docs seen).map dedupKey).Nodup ∧
      ∀ d ∈ dedupPass m docs seen, dedupKey d ∉ seen := by
  intro docs
  induction docs with
  | nil =>
    intro seen
    simp [dedupPass]
  | cons a rest ih =>
    intro seen
    by_cases h1 : docScore a < m
    · rw [show dedupPass m (a :: rest) seen = dedupPass m rest seen by
        simp [dedupPass, h1]]
      exact ih seen
    · by_cases h2 : dedupKey a ∈ seen
      · rw [show dedupPass m (a :: rest) seen = dedupPass m rest seen by
          simp [dedupPass, h1, h2]]
        exact ih seen
      · rw [show dedupPass m (a :: rest) seen =
            a :: dedupPass m rest (dedupKey a :: seen) by
          simp [dedupPass, h1, h2]]
        obtain ⟨hnd, hnin⟩ := ih (dedupKey a :: seen)
        constructor
        · simp only [List.map_cons, List.nodup_cons]
          refine ⟨?_, hnd⟩
          intro hmem
          obtain ⟨d, hd, hdk⟩ := List.mem_map.mp hmem
          exact hnin d hd (hdk ▸ List.mem_cons_self _ _)
        · intro d hd
          rcases List.mem_cons.mp hd with rfl | h3
          · exact h2
          · exact fun hse => hnin d h3 (List.mem_cons_of_mem _ hse)

/-- C5 (amended): `_deduplicate_and_filter_docs` keeps exactly the documents
whose score is at least `min_score`, deduplicated on the key
`page_content[:100].strip()` — truncate to 100 characters, then strip — so
no two results share that key and two documents with identical raw
100-character openings collapse to one; the result is sorted by descending
score, stably (a pair in correct relative score order in the deduplication
pass keeps that order). -/
theorem C5_dedup_filter (docs : List RDoc) (m : ℚ) :
    (∀ d ∈ deduplicate_and_filter_docs docs m, d ∈ docs ∧ m ≤ docScore d) ∧
    ((deduplicate_and_filter_docs docs m).map dedupKey).Nodup ∧
    List.Sorted docGe (deduplicate_and_filter_docs docs m) ∧
    (∀ a b, docGe a b → [a, b].Sublist (dedupPass m docs []) →
      [a, b].Sublist (deduplicate_and_filter_docs docs m)) ∧
    (∀ d1 d2 : RDoc, d1.page_content.take 100 = d2.page_content.take 100 →
      ¬ docScore d1 < m → ¬ docScore d2 < m →
      (deduplicate_and_filter_docs [d1, d2] m).length = 1) := by
  refine ⟨?_, ?_, ?_, ?_, ?_⟩
  · intro d hd
    exact mem_dedupPass ((List.mem_insertionSort docGe).mp hd)
  · have hperm : List.Perm ((deduplicate_and_filter_docs docs m).map dedupKey)
        ((dedupPass m docs []).map dedupKey) :=
      (List.perm_insertionSort docGe (dedupPass m docs [])).map dedupKey
    exact hperm.nodup_iff.mpr (dedupPass_keys m docs []).1
  · exact List.sorted_insertionSort docGe (dedupPass m docs [])
  · intro a b hab hsub
    exact List.pair_sublist_insertionSort hab hsub
  · intro d1 d2 htake h1 h2
    have hkey : dedupKey d2 = dedupKey d1 := by
      simp only [dedupKey, htake]
    have hpass : dedupPass m [d1, d2] [] = [d1] := by
      simp [dedupPass, h1, h2, hkey]
    simp [deduplicate_and_filter_docs, hpass, List.insertionSort, List.orderedInsert]

/-- C5 counterexample: two documents with equal "first 100 characters of the
trimmed content" — the deduplication key as the claim words it — which
`_deduplicate_and_filter_docs` does not collapse: the code strips after
truncating, so `docLongB`'s leading space shifts its truncation window. -/
theorem C5_counterexample :
    specTrimFirst docLongA = specTrimFirst docLongB ∧
    docLongA.page_content ≠ docLongB.page_content ∧
    (deduplicate_and_filter_docs [docLongA, docLongB] 0).length = 2 := by
  decide

/-- C5 witness: two documents sharing a raw 100-character opening collapse to
one result. -/
theorem C5_witness :
    (deduplicate_and_filter_docs
      [⟨"same start".data, some "a".data, some (mkRat 6 10)⟩,
       ⟨"same start".data, some "b".data, some (mkRat 4 10)⟩] 0).length = 1 :=
  (C5_dedup_filter [] 0).2.2.2.2 _ _ (by decide) (by decide) (by decide)

theorem mem_aset_nodup {κ β : Type} [DecidableEq κ] :
    ∀ {l : List (κ × β)} {k : κ} {b : β} {q : κ × β},
      (l.map Prod.fst).Nodup → q ∈ aset l k b → q = (k, b) ∨ (q ∈ l ∧ q.1 ≠ k) := by
  intro l
  induction l with
  | nil =>
    intro k b q _ h
    simp [aset] at h
    exact Or.inl h
  | cons p rest ih =>
    intro k b q hn h
    simp only [List.map_cons, List.nodup_cons] at hn
    by_cases hp : p.1 = k
    · rcases List.mem_cons.mp (by simpa [aset, hp] using h) with h1 | h1
      · exact Or.inl h1
      · refine Or.inr ⟨List.mem_cons_of_mem _ h1, ?_⟩
        intro hqk
        exact hn.1 (List.mem_map.mpr ⟨q, h1, hqk.trans hp.symm⟩)
    · rcases List.mem_cons.mp (by simpa [aset, hp] using h) with h1 | h1
      · refine Or.inr ⟨?_, ?_⟩
        · rw [h1]
          exact List.mem_cons_self _ _
        · rw [h1]
          exact hp
      · rcases ih hn.2 h1 with h2 | ⟨h2, h3⟩
        · exact Or.inl h2
        · exact Or.inr ⟨List.mem_cons_of_mem _ h2, h3⟩

theorem mem_aset_of_ne {κ β : Type} [DecidableEq κ] :
    ∀ {l : List (κ × β)} {k : κ} {b : β} {q : κ × β},
      q ∈ l → q.1 ≠ k → q ∈ aset l k b := by
  intro l
  induction l with
  | nil =>
    intro k b q h _
    simp at h
  | cons p rest ih =>
    intro k b q h hne
    by_cases hp : p.1 = k
    · rcases List.mem_cons.mp h with rfl | h1
      · exact absurd hp hne
      · simp only [aset, if_pos hp]
        exact List.mem_cons_of_mem _ h1
    · simp only [aset, if_neg hp]
      rcases List.mem_cons.mp h with rfl | h1
      · exact List.mem_cons_self _ _
      · exact List.mem_cons_of_mem _ (ih h1 hne)

theorem alookup_ne_none_of_mem {κ β : Type} [DecidableEq κ] {l : List (κ × β)}
    {p : κ × β} (h : p ∈ l) : alookup l p.1 ≠ none :=
  fun hn => alookup_eq_none_iff.mp hn p h rfl

theorem sourceMap_foldl :
    ∀ (rest : List SrcEntry) (m : List (List Char × SrcEntry))
      (processed : List SrcEntry),
      (m.map Prod.fst).Nodup →
      (∀ p ∈ m, p.2.source = p.1) →
      (∀ p ∈ m, p.2 ∈ processed) →
      (∀ p ∈ m, ∀ s ∈ processed, s.source = p.1 →
        s.similarity_score ≤ p.2.similarity_score) →
      (∀ s ∈ processed, ∃ e, (s.source, e) ∈ m) →
      ((rest.foldl updateSourceMap m).map Prod.fst).Nodup ∧
      (∀ p ∈ rest.foldl updateSourceMap m, p.2.source = p.1) ∧
      (∀ p ∈ rest.foldl updateSourceMap m, p.2 ∈ processed ++ rest) ∧
      (∀ p ∈ rest.foldl updateSourceMap m, ∀ s ∈ processed ++ rest,
        s.source = p.1 → s.similarity_score ≤ p.2.similarity_score) := by
  intro rest
  induction rest with
  | nil =>
    intro m processed h1 h2 h3 h4 _
    simp only [List.foldl_nil, List.append_nil]
    exact ⟨h1, h2, h3, h4⟩
  | cons s rest ih =>
    intro m processed h1 h2 h3 h4 h5
    have hstep : ((updateSourceMap m s).map Prod.fst).Nodup ∧
        (∀ p ∈ updateSourceMap m s, p.2.source = p.1) ∧
        (∀ p ∈ updateSourceMap m s, p.2 ∈ processed ++ [s]) ∧
        (∀ p ∈ updateSourceMap m s, ∀ t ∈ processed ++ [s], t.source = p.1 →
          t.similarity_score ≤ p.2.similarity_score) ∧
        (∀ t ∈ processed ++ [s], ∃ e, (t.source, e) ∈ updateSourceMap m s) := by
      rcases hl : alookup m s.source with _ | e
      · -- fresh source name: append
        have hm2 : updateSourceMap m s = m ++ [(s.source, s)] := by
          rw [updateSourceMap, hl]
          exact aset_of_none _ hl
        have hknotin : s.source ∉ m.map Prod.fst := by
          intro hmem
          obtain ⟨p, hp, hpk⟩ := List.mem_map.mp hmem
          exact alookup_eq_none_iff.mp hl p hp hpk
        refine ⟨?_, ?_, ?_, ?_, ?_⟩
        · rw [hm2, List.map_append]
          refine List.nodup_append.mpr ⟨h1, by simp, ?_⟩
          intro a ha hb
          simp only [List.map_cons, List.map_nil, List.mem_singleton] at hb
          rw [hb] at ha
          exact hknotin ha
        · intro p hp
          rcases List.mem_append.mp (hm2 ▸ hp) with hpm | hps
          · exact h2 p hpm
          · rcases List.mem_singleton.mp hps with rfl
            rfl
        · intro p hp
          rcases List.mem_append.mp (hm2 ▸ hp) with hpm | hps
          · exact List.mem_append_left _ (h3 p hpm)
          · rcases List.mem_singleton.mp hps with rfl
            exact List.mem_append_right _ (List.mem_singleton.mpr rfl)
        · intro p hp t ht hts
          rcases List.mem_append.mp (hm2 ▸ hp) with hpm | hps
          · rcases List.mem_append.mp ht with htp | hts2
            · exact h4 p hpm t htp hts
            · rcases List.mem_singleton.mp hts2 with rfl
              exact absurd (List.mem_map.mpr ⟨p, hpm, hts.symm⟩) hknotin
          · rcases List.mem_singleton.mp hps with rfl
            rcases List.mem_append.mp ht with htp | hts2
            · obtain ⟨e2, he2⟩ := h5 t htp
              rw [hts] at he2
              exact absurd hl (alookup_ne_none_of_mem he2)
            · rcases List.mem_singleton.mp hts2 with rfl
              exact le_refl _
        · intro t ht
          rcases List.mem_append.mp ht with htp | hts2
          · obtain ⟨e2, he2⟩ := h5 t htp
            exact ⟨e2, hm2 ▸ List.mem_append_left _ he2⟩
          · rcases List.mem_singleton.mp hts2 with rfl
            exact ⟨t, hm2 ▸ List.mem_append_right _ (List.mem_singleton.mpr rfl)⟩
      · -- existing source name
        have hemem : (s.source, e) ∈ m := alookup_mem hl
        by_cases hlt : e.similarity_score < s.similarity_score
        · have hm2 : updateSourceMap m s = aset m s.source s := by
            rw [updateSourceMap, hl]
            exact if_pos hlt
          refine ⟨?_, ?_, ?_, ?_, ?_⟩
          · rw [hm2, keys_aset_of_some _ hl]
            exact h1
          · intro p hp
            rcases mem_aset_nodup h1 (hm2 ▸ hp) with rfl | ⟨hpm, _⟩
            · rfl
            · exact h2 p hpm
          · intro p hp
            rcases mem_aset_nodup h1 (hm2 ▸ hp) with rfl | ⟨hpm, _⟩
            · exact List.mem_append_right _ (List.mem_singleton.mpr rfl)
            · exact List.mem_append_left _ (h3 p hpm)
          · intro p hp t ht hts
            rcases mem_aset_nodup h1 (hm2 ▸ hp) with rfl | ⟨hpm, hpne⟩
            · rcases List.mem_append.mp ht with htp | hts2
              · exact le_trans (h4 (s.source, e) hemem t htp hts) (le_of_lt hlt)
              · rcases List.mem_singleton.mp hts2 with rfl
                exact le_refl _
            · rcases List.mem_append.mp ht with htp | hts2
              · exact h4 p hpm t htp hts
              · rcases List.mem_singleton.mp hts2 with rfl
                exact absurd hts.symm hpne
          · intro t ht
            rcases List.mem_append.mp ht with htp | hts2
            · obtain ⟨e2, he2⟩ := h5 t htp
              by_cases hsrc : t.source = s.source
              · refine ⟨s, ?_⟩
                rw [hm2, hsrc]
                exact alookup_mem (alookup_aset_self _ _ _)
              · exact ⟨e2, hm2 ▸ mem_aset_of_ne he2 hsrc⟩
            · rcases List.mem_singleton.mp hts2 with rfl
              refine ⟨t, ?_⟩
              rw [hm2]
              exact alookup_mem (alookup_aset_self _ _ _)
        · have hm2 : updateSourceMap m s = m := by
            rw [updateSourceMap, hl]
            exact if_neg hlt
          refine ⟨?_, ?_, ?_, ?_, ?_⟩
          · rw [hm2]
            exact h1
          · intro p hp
            exact h2 p (hm2 ▸ hp)
          · intro p hp
            exact List.mem_append_left _ (h3 p (hm2 ▸ hp))
          · intro p hp t ht hts
            have hpm : p ∈ m := hm2 ▸ hp
            rcases List.mem_append.mp ht with htp | hts2
            · exact h4 p hpm t htp hts
            · rcases List.mem_singleton.mp hts2 with rfl
              have hpl : alookup m p.1 = some p.2 := alookup_of_mem_nodup h1 hpm
              rw [hts] at hl
              rw [hpl] at hl
              have : p.2 = e := by injection hl
              rw [this]
              exact not_lt.mp hlt
          · intro t ht
            rcases List.mem_append.mp ht with htp | hts2
            · obtain ⟨e2, he2⟩ := h5 t htp
              refine ⟨e2, ?_⟩
              rw [hm2]
              exact he2
            · rcases List.mem_singleton.mp hts2 with rfl
              refine ⟨e, ?_⟩
              rw [hm2]
              exact hemem
    obtain ⟨i1, i2, i3, i4, i5⟩ := hstep
    have hres := ih (updateSourceMap m s) (processed ++ [s]) i1 i2 i3 i4 i5
    have hord : (processed ++ [s]) ++ rest = processed ++ s :: rest := by simp
    rw [hord] at hres
    exact hres

/-- C6 (amended): `_process_documents_for_sources` produces at most one
citation per unique source name — for each included source the single
occurrence carries the highest score over all documents with that source
name — keeps only sources with score ≥ 0, and caps the output at the five
highest-scoring sources; in particular three documents sharing one source
with scores 0.4, 0.9, 0.2 yield exactly the one citation with score 0.9. -/
theorem C6_citations (docs : List RDoc) :
    ((process_documents_for_sources docs).map (fun c => c.source)).Nodup ∧
    (∀ c ∈ process_documents_for_sources docs,
      (0 : ℚ) ≤ c.similarity_score ∧
      (∃ d ∈ docs, docSource d = c.source ∧ docScore d = c.similarity_score) ∧
      (∀ d ∈ docs, docSource d = c.source → docScore d ≤ c.similarity_score)) ∧
    (process_documents_for_sources docs).length ≤ 5 ∧
    process_documents_for_sources
      [⟨"text".data, some "doc.pdf".data, some (mkRat 4 10)⟩,
       ⟨"text".data, some "doc.pdf".data, some (mkRat 9 10)⟩,
       ⟨"text".data, some "doc.pdf".data, some (mkRat 2 10)⟩] =
      [⟨"doc.pdf".data, mkRat 9 10, "text".data⟩] := by
  obtain ⟨hA, hB, hC, hD⟩ := sourceMap_foldl (buildSources docs) [] []
    (by simp) (by simp) (by simp) (by simp) (by simp)
  simp only [List.nil_append] at hC hD
  have hsrc_eq : ((List.foldl updateSourceMap [] (buildSources docs)).map
      Prod.snd).map (fun c => c.source) =
      (List.foldl updateSourceMap [] (buildSources docs)).map Prod.fst := by
    rw [List.map_map]
    exact List.map_congr_left (fun p hp => hB p hp)
  have hvals_nodup : (((List.foldl updateSourceMap [] (buildSources docs)).map
      Prod.snd).map (fun c => c.source)).Nodup := by
    rw [hsrc_eq]
    exact hA
  have hmemM : ∀ c ∈ process_documents_for_sources docs,
      (0 : ℚ) ≤ c.similarity_score ∧
      ∃ p ∈ List.foldl updateSourceMap [] (buildSources docs), p.2 = c := by
    intro c hc
    simp only [process_documents_for_sources, filter_sources_by_threshold] at hc
    have h1 := (List.mem_insertionSort srcGe).mp (List.mem_of_mem_take hc)
    have h3 := List.mem_filter.mp h1
    refine ⟨by simpa using h3.2, ?_⟩
    obtain ⟨p, hp, hpc⟩ := List.mem_map.mp h3.1
    exact ⟨p, hp, hpc⟩
  refine ⟨?_, ?_, ?_, by decide⟩
  · simp only [process_documents_for_sources, filter_sources_by_threshold]
    have hfil : ((((List.foldl updateSourceMap [] (buildSources docs)).map
        Prod.snd).filter (fun s => decide ((0:ℚ) ≤ s.similarity_score))).map
        (fun c => c.source)).Nodup :=
      hvals_nodup.sublist (List.Sublist.map _ (List.filter_sublist _))
    have hsort : (((((List.foldl updateSourceMap [] (buildSources docs)).map
        Prod.snd).filter (fun s => decide ((0:ℚ) ≤ s.similarity_score))).insertionSort
        srcGe).map (fun c => c.source)).Nodup :=
      (((List.perm_insertionSort srcGe _).map (fun c => c.source)).nodup_iff).mpr hfil
    exact hsort.sublist (List.Sublist.map _ (List.take_sublist _ _))
  · intro c hc
    obtain ⟨hge, p, hp, hpc⟩ := hmemM c hc
    refine ⟨hge, ?_, ?_⟩
    · obtain ⟨d, hd, hbuild⟩ := List.mem_map.mp (hpc ▸ hC p hp)
      refine ⟨d, hd, ?_, ?_⟩
      · rw [← hbuild]
      · rw [← hbuild]
    · intro d hd hsame
      have hsrc : (⟨docSource d, docScore d, d.page_content.take 500⟩ :
          SrcEntry).source = p.1 := by
        show docSource d = p.1
        rw [hsame, ← hpc]
        exact hB p hp
      have := hD p hp ⟨docSource d, docScore d, d.page_content.take 500⟩
        (List.mem_map.mpr ⟨d, hd, rfl⟩) hsrc
      rw [← hpc]
      exact this
  · simp only [process_documents_for_sources, filter_sources_by_threshold]
    exact List.length_take_le _ _

/-- C6 counterexample: six documents with six distinct source names and equal
scores produce only five citations — `_filter_sources_by_threshold` truncates
to its default `top_k = 5`, so "exactly one citation per unique source name"
fails. -/
theorem C6_counterexample :
    (process_documents_for_sources
      [⟨"t".data, some "s1".data, some (mkRat 1 2)⟩,
       ⟨"t".data, some "s2".data, some (mkRat 1 2)⟩,
       ⟨"t".data, some "s3".data, some (mkRat 1 2)⟩,
       ⟨"t".data, some "s4".data, some (mkRat 1 2)⟩,
       ⟨"t".data, some "s5".data, some (mkRat 1 2)⟩,
       ⟨"t".data, some "s6".data, some (mkRat 1 2)⟩]).length = 5 ∧
    (([⟨"t".data, some "s1".data, some (mkRat 1 2)⟩,
       ⟨"t".data, some "s2".data, some (mkRat 1 2)⟩,
       ⟨"t".data, some "s3".data, some (mkRat 1 2)⟩,
       ⟨"t".data, some "s4".data, some (mkRat 1 2)⟩,
       ⟨"t".data, some "s5".data, some (mkRat 1 2)⟩,
       ⟨"t".data, some "s6".data, some (mkRat 1 2)⟩] : List RDoc).map
      docSource).Nodup := by
  decide

/-- C6 witness: with two chunks of the same source, the kept citation carries
the higher score and dominates both documents. -/
theorem C6_witness :
    (0 : ℚ) ≤ (⟨"doc.pdf".data, mkRat 9 10, "text".data⟩ : SrcEntry).similarity_score ∧
    (∃ d ∈ [⟨"text".data, some "doc.pdf".data, some (mkRat 4 10)⟩,
            ⟨"text".data, some "doc.pdf".data, some (mkRat 9 10)⟩,
            ⟨"text".data, some "doc.pdf".data, some (mkRat 2 10)⟩],
      docSource d = (⟨"doc.pdf".data, mkRat 9 10, "text".data⟩ : SrcEntry).source ∧
      docScore d = (⟨"doc.pdf".data, mkRat 9 10, "text".data⟩ : SrcEntry).similarity_score) ∧
    (∀ d ∈ [⟨"text".data, some "doc.pdf".data, some (mkRat 4 10)⟩,
            ⟨"text".data, some "doc.pdf".data, some (mkRat 9 10)⟩,
            ⟨"text".data, some "doc.pdf".data, some (mkRat 2 10)⟩],
      docSource d = (⟨"doc.pdf".data, mkRat 9 10, "text".data⟩ : SrcEntry).source →
      docScore d ≤ (⟨"doc.pdf".data, mkRat 9 10, "text".data⟩ : SrcEntry).similarity_score) :=
  (C6_citations
    [⟨"text".data, some "doc.pdf".data, some (mkRat 4 10)⟩,
     ⟨"text".data, some "doc.pdf".data, some (mkRat 9 10)⟩,
     ⟨"text".data, some "doc.pdf".data, some (mkRat 2 10)⟩]).2.1
    ⟨"doc.pdf".data, mkRat 9 10, "text".data⟩ (by decide)

/-- C7 (amended): the semantic-cache lookup is a no-op returning absent when
the feature flag (off by default) is disabled; any lookup failure — the
vector index raising, or malformed `sources` metadata — degrades to a cache
miss; an empty 1-NN result is a miss; and a non-miss occurs exactly when the
similarity of the single nearest neighbour is at least the threshold (the
code compares with `>=`, so similarity equal to the threshold also hits),
the hit carrying that similarity. -/
theorem C7_semantic_cache :
    RAG_SEMANTIC_CACHE_ENABLED = false ∧
    RAG_SEMANTIC_CACHE_THRESHOLD = mkRat 92 100 ∧
    (∀ (t : ℚ) (search : Except Unit (List (SCacheDoc × ℚ))),
      check_semantic_cache false t search = none) ∧
    (∀ (t : ℚ) (e : Unit), check_semantic_cache true t (Except.error e) = none) ∧
    (∀ t : ℚ, check_semantic_cache true t (Except.ok []) = none) ∧
    (∀ (t sc : ℚ) (resp : Option (List Char)) (rest : List (SCacheDoc × ℚ)),
      check_semantic_cache true t
        (Except.ok ((⟨resp, Except.error ()⟩, sc) :: rest)) = none) ∧
    (∀ (t sc : ℚ) (doc : SCacheDoc) (rest : List (SCacheDoc × ℚ)),
      check_semantic_cache true t (Except.ok ((doc, sc) :: rest)) ≠ none →
      t ≤ sc ∧ ∃ srcs, doc.sourcesMeta = Except.ok srcs ∧
        check_semantic_cache true t (Except.ok ((doc, sc) :: rest)) =
          some ⟨doc.response, srcs, true, sc⟩) := by
  refine ⟨rfl, rfl, fun t search => rfl, fun t e => rfl, fun t => rfl, ?_, ?_⟩
  · intro t sc resp rest
    have hred : check_semantic_cache true t
        (Except.ok ((⟨resp, Except.error ()⟩, sc) :: rest)) =
        if t ≤ sc then none else none := rfl
    rw [hred]
    exact ite_self none
  · intro t sc doc rest hne
    have hred : check_semantic_cache true t (Except.ok ((doc, sc) :: rest)) =
        if t ≤ sc then
          (match doc.sourcesMeta with
            | Except.error _ => none
            | Except.ok srcs => some ⟨doc.response, srcs, true, sc⟩)
        else none := rfl
    by_cases hts : t ≤ sc
    · refine ⟨hts, ?_⟩
      cases hsm : doc.sourcesMeta with
      | error e2 => exact absurd (by rw [hred, if_pos hts, hsm]) hne
      | ok srcs => exact ⟨srcs, rfl, by rw [hred, if_pos hts, hsm]⟩
    · exact absurd (by rw [hred, if_neg hts]) hne

/-- C7 counterexample: with similarity exactly equal to the default 0.92
threshold the code returns a hit, although the similarity does not strictly
exceed the threshold as the claim's "exceeds" requires. -/
theorem C7_counterexample :
    (check_semantic_cache true RAG_SEMANTIC_CACHE_THRESHOLD
      (Except.ok [(⟨some "ans".data, Except.ok []⟩,
        RAG_SEMANTIC_CACHE_THRESHOLD)])).isSome = true ∧
    ¬ RAG_SEMANTIC_CACHE_THRESHOLD < RAG_SEMANTIC_CACHE_THRESHOLD := by
  decide

/-- C7 witness: a hit above threshold carries the result's similarity. -/
theorem C7_witness :
    (mkRat 1 2) ≤ mkRat 3 4 ∧
    ∃ srcs, (⟨some "a".data, Except.ok []⟩ : SCacheDoc).sourcesMeta =
      Except.ok srcs ∧
      check_semantic_cache true (mkRat 1 2)
        (Except.ok [(⟨some "a".data, Except.ok []⟩, mkRat 3 4)]) =
        some ⟨(⟨some "a".data, Except.ok []⟩ : SCacheDoc).response, srcs, true,
          mkRat 3 4⟩ :=
  (C7_semantic_cache).2.2.2.2.2.2 (mkRat 1 2) (mkRat 3 4)
    ⟨some "a".data, Except.ok []⟩ [] (by decide)

/-- C9: when the processor yields zero chunks, `ingest_document` raises no
exception and returns a chunk count of 0 (its only progress event is the 60%
"Embedding started" one), and the caller `process_and_ingest` reports
terminal failure on the progress channel: its final event carries progress
−1 and a message containing "no content extracted" rather than a generic
error. -/
theorem C9_zero_chunks (file_size cfg : Nat) :
    (ingest_document file_size [] cfg).1 = 0 ∧
    (ingest_document file_size [] cfg).2 = [⟨60, "Embedding started".data⟩] ∧
    (process_and_ingest (Except.ok (ingest_document file_size [] cfg))).getLast? =
      some ⟨-1, "Document processing failed: ".data ++
        "no content extracted".data⟩ := by
  exact ⟨rfl, rfl, rfl⟩

/-! ### Lowercasing preserves whitespace, hence word counts (used for the
`expand_query` guards, which count words of `query.lower()`) -/

/-- `Char.ofNat` below the surrogate range yields a character with that
code point. -/
theorem char_toNat_ofNat_valid {m : Nat} (h2 : m < 55296) :
    (Char.ofNat m).toNat = m := by
  rw [Char.ofNat, dif_pos (Or.inl (by omega))]
  simp only [Char.ofNatAux, Char.toNat, UInt32.ofNat']
  simp [UInt32.toNat]

/-- No character beyond the space (code 32) is Python whitespace. -/
theorem pyIsSpace_false_of_gt {c : Char} (h : 32 < c.toNat) :
    pyIsSpace c = false := by
  have h1 : c ≠ ' ' := fun he => by rw [he] at h; exact absurd h (by decide)
  have h2 : c ≠ '\t' := fun he => by rw [he] at h; exact absurd h (by decide)
  have h3 : c ≠ '\n' := fun he => by rw [he] at h; exact absurd h (by decide)
  have h4 : c ≠ '\r' := fun he => by rw [he] at h; exact absurd h (by decide)
  have h5 : c ≠ '\x0b' := fun he => by rw [he] at h; exact absurd h (by decide)
  have h6 : c ≠ '\x0c' := fun he => by rw [he] at h; exact absurd h (by decide)
  simp [pyIsSpace, h1, h2, h3, h4, h5, h6]

/-- Lowercasing a character does not change whether it is whitespace. -/
theorem pyIsSpace_toLower (c : Char) :
    pyIsSpace (Char.toLower c) = pyIsSpace c := by
  unfold Char.toLower
  by_cases h : c.toNat ≥ 65 ∧ c.toNat ≤ 90
  · rw [if_pos h]
    have hval : (Char.ofNat (Char.toNat c + 32)).toNat = Char.toNat c + 32 :=
      char_toNat_ofNat_valid (by omega)
    rw [pyIsSpace_false_of_gt (by rw [hval]; omega),
        pyIsSpace_false_of_gt (by omega)]
  · rw [if_neg h]

/-- The split used by `str.split()` produces the same number of words on the
lower-cased text. -/
theorem pySplitAux_map_toLower (s : List Char) :
    ∀ cur : List Char,
      (pySplitAux (cur.map Char.toLower) (s.map Char.toLower)).length =
      (pySplitAux cur s).length := by
  induction s with
  | nil =>
    intro cur
    cases cur <;> simp [pySplitAux]
  | cons c rest ih =>
    intro cur
    simp only [List.map_cons, pySplitAux, pyIsSpace_toLower c]
    by_cases hc : pyIsSpace c = true
    · rw [if_pos hc, if_pos hc]
      cases cur with
      | nil =>
        exact ih []
      | cons x xs =>
        simp only [List.map_cons, List.isEmpty_cons, Bool.false_eq_true,
          if_false, List.length_cons]
        have h0 := ih []
        simp only [List.map_nil] at h0
        rw [h0]
    · rw [if_neg hc, if_neg hc]
      exact ih (c :: cur)

/-- `query.lower().split()` has as many words as `query.split()`. -/
theorem pySplitWords_toLower_length (q : List Char) :
    (pySplitWords (pyLower q)).length = (pySplitWords q).length :=
  pySplitAux_map_toLower q []

/-- The combination loop only ever appends to the live list. -/
theorem addVariants_append (vs : List (List Char)) :
    ∀ (acc : List (List Char)) (qL : List Char),
      ∃ t, addVariants qL acc vs = acc ++ t := by
  induction vs with
  | nil =>
    intro acc qL
    exact ⟨[], by simp [addVariants]⟩
  | cons v rest ih =>
    intro acc qL
    simp only [addVariants]
    by_cases h1 : v ≠ qL ∧ v ∉ acc
    · rw [if_pos h1]
      by_cases h2 : 4 ≤ (acc ++ [v]).length
      · rw [if_pos h2]
        exact ⟨[v], rfl⟩
      · rw [if_neg h2]
        obtain ⟨t, ht⟩ := ih (acc ++ [v]) qL
        exact ⟨[v] ++ t, by rw [ht, List.append_assoc]⟩
    · rw [if_neg h1]
      exact ih acc qL

/-- Starting under four entries, the combination loop never exceeds four. -/
theorem addVariants_le_four (vs : List (List Char)) :
    ∀ (acc : List (List Char)) (qL : List Char), acc.length < 4 →
      (addVariants qL acc vs).length ≤ 4 := by
  induction vs with
  | nil =>
    intro acc qL h
    simpa [addVariants] using le_of_lt h
  | cons v rest ih =>
    intro acc qL h
    simp only [addVariants]
    by_cases h1 : v ≠ qL ∧ v ∉ acc
    · rw [if_pos h1]
      by_cases h2 : 4 ≤ (acc ++ [v]).length
      · rw [if_pos h2]
        simp only [List.length_append, List.length_cons, List.length_nil]
        omega
      · rw [if_neg h2]
        apply ih
        simp only [List.length_append, List.length_cons, List.length_nil] at h2 ⊢
        omega
    · rw [if_neg h1]
      exact ih acc qL h

/-- C8 (amended): `expand_query` returns the original query first and between
1 and 4 entries in total; queries of fewer than 2 words, and queries of more
than 4 words (the cap counts the words of the lower-cased query, which equal
those of the original), are returned alone with no product formed; and a
word's per-word choice list is `self.synonyms.get(word, [word])[:2]` — for a
word in the static table this is its first two listed alternates and does
NOT include the word itself, while for any other word it is just the word
alone. -/
theorem C8_expand (q : List Char) :
    (∃ t, expand_query q = q :: t) ∧
    1 ≤ (expand_query q).length ∧ (expand_query q).length ≤ 4 ∧
    ((pySplitWords q).length < 2 → expand_query q = [q]) ∧
    (4 < (pySplitWords q).length → expand_query q = [q]) ∧
    (∀ w syns, alookup synonyms w = some syns →
      wordChoices w = syns.take 2 ∧ ¬ w ∈ wordChoices w) ∧
    (∀ w, alookup synonyms w = none → wordChoices w = [w]) ∧
    expand_query "show me".data =
      ["show me".data, "display me".data, "present me".data] := by
  have hmain : expand_query q = [q] ∨
      ∃ combos, expand_query q = addVariants (pyLower q) [q] combos := by
    by_cases h1 : q = [] ∨ (pySplitWords q).length < 2
    · left
      simp only [expand_query]
      rw [if_pos h1]
    · by_cases h2 : ((pySplitWords (pyLower q)).map wordChoices).length ≤ 4
      · right
        refine ⟨(listProd ((pySplitWords (pyLower q)).map wordChoices)).map
          (fun combo => List.intercalate [' '] combo), ?_⟩
        simp only [expand_query]
        rw [if_neg h1, if_pos h2]
      · left
        simp only [expand_query]
        rw [if_neg h1, if_neg h2]
  have hhead : ∃ t, expand_query q = q :: t := by
    rcases hmain with h | ⟨combos, h⟩
    · exact ⟨[], h⟩
    · obtain ⟨t, ht⟩ := addVariants_append combos [q] (pyLower q)
      refine ⟨t, ?_⟩
      rw [h, ht]
      rfl
  refine ⟨hhead, ?_, ?_, ?_, ?_, ?_, ?_, by decide⟩
  · obtain ⟨t, ht⟩ := hhead
    rw [ht]
    simp
  · rcases hmain with h | ⟨combos, h⟩
    · rw [h]
      simp
    · rw [h]
      exact addVariants_le_four combos [q] (pyLower q) (by simp)
  · intro h
    simp only [expand_query]
    rw [if_pos (Or.inr h)]
  · intro h
    have hne : ¬ (q = [] ∨ (pySplitWords q).length < 2) := by
      rintro (rfl | h2)
      · exact absurd h (by decide)
      · omega
    have hc : ¬ ((pySplitWords (pyLower q)).map wordChoices).length ≤ 4 := by
      rw [List.length_map, pySplitWords_toLower_length]
      omega
    simp only [expand_query]
    rw [if_neg hne, if_neg hc]
  · have htab : ∀ p ∈ synonyms, ¬ p.1 ∈ p.2.take 2 := by decide
    intro w syns h
    have h1 : wordChoices w = syns.take 2 := by
      simp [wordChoices, h]
    refine ⟨h1, ?_⟩
    rw [h1]
    exact htab (w, syns) (alookup_mem h)
  · intro w h
    simp [wordChoices, h]

/-- C8 counterexample: the choice list of an in-table word is NOT "itself
plus up to two alternates": for "show" it is exactly the two alternates
["display", "present"], and "show" itself is not among its own choices. -/
theorem C8_counterexample :
    wordChoices "show".data = ["display".data, "present".data] ∧
    ¬ "show".data ∈ wordChoices "show".data := by
  decide

/-- C8 witness: the guarded conjuncts at concrete inputs — a 1-word query
and a 5-word query are returned alone, and the table lookup for "show". -/
theorem C8_witness :
    ((pySplitWords "hello".data).length < 2 ∧
      expand_query "hello".data = ["hello".data]) ∧
    (4 < (pySplitWords "a b c d e".data).length ∧
      expand_query "a b c d e".data = ["a b c d e".data]) ∧
    (alookup synonyms "help".data =
        some ["assist".data, "support".data, "aid".data] ∧
      wordChoices "help".data =
        (["assist".data, "support".data, "aid".data]).take 2 ∧
      ¬ "help".data ∈ wordChoices "help".data) :=
  ⟨⟨by decide, (C8_expand "hello".data).2.2.2.1 (by decide)⟩,
   ⟨by decide, (C8_expand "a b c d e".data).2.2.2.2.1 (by decide)⟩,
   by decide,
   (C8_expand "x".data).2.2.2.2.2.1 "help".data
     ["assist".data, "support".data, "aid".data] (by decide)⟩
